import Mathlib

/-!
Verification development for the synthetic analytics data generator
(`analytics-generator.py`).

The source program builds, from a seeded pseudo-random stream and the current
wall-clock time, a flat list of page-view and conversion events for a
population of synthetic users, and then derives two aggregate tables
(`daily_user_metrics`, `session_metrics`) by grouping that list.

Shallow embedding conventions:
* Timestamps are modelled as whole minutes since an arbitrary epoch (every
  `timedelta` the source adds to a timestamp is a whole number of minutes, so
  this is exact).  `datetime.now()` becomes an explicit parameter `now`.
* The two pseudo-random streams (`random` and `np.random`) are modelled by a
  single explicit state `s : σ` threaded through the computation in source
  draw order, together with an `RNG σ` record of draw functions; the record is
  constrained only by `RNG.Lawful`, which states the documented contracts of
  `randint` (inclusive bounds), `random` (in `[0,1)`), `uniform` (inclusive
  bounds) and weighted `choice` (membership).
* Python decimal rendering `str(n)` / `f"{i:04d}"` is embedded by `natStr` /
  `pad4`; `strftime('%Y%m%d')` is embedded by `fmtDay`, which renders the
  calendar-day number of a timestamp (like the source's rendering, it assigns
  distinct strings to distinct calendar days and the same string within a day).
* `round(x, 2)` on the uniform revenue draw is embedded over `ℚ` by `round2`
  (rounding to the nearest cent; the tie-breaking rule of Python float
  rounding is immaterial to every property below).
* Fallible pipeline steps return `Except`: `pandas.DataFrame` built from an
  empty list of dicts has no columns, so the derived-field step
  `df['timestamp']` raises `KeyError`; the embedding makes that explicit.
-/

namespace Analytics

/-- Characters of the decimal rendering of a natural number, most significant
digit first; the first argument is explicit fuel (any fuel above the argument
is enough) so that the recursion is structural and kernel-reducible. -/
def natDigitsF : Nat → Nat → List Char
  | 0, _ => []
  | f + 1, n => if n < 10 then [Nat.digitChar n] else natDigitsF f (n / 10) ++ [Nat.digitChar (n % 10)]

/-- Decimal rendering of a natural number, as produced by Python `str(n)`. -/
def natStr (n : Nat) : String := String.mk (natDigitsF (n + 1) n)

/-- Python `f"{i:04d}"`: decimal rendering left-padded with zeros to width 4. -/
def pad4 (i : Nat) : String :=
  String.mk (List.replicate (4 - (natDigitsF (i + 1) i).length) '0' ++ natDigitsF (i + 1) i)

/-- Embedding of `strftime('%Y%m%d')` on a timestamp in minutes: renders the
calendar-day number of the timestamp.  Like the source's calendar rendering it
is constant on a calendar day and distinguishes distinct days. -/
def fmtDay (t : Nat) : String := natStr (t / 1440)

/-- Embedding of Python `round(q, 2)`: round to the nearest hundredth,
computed on the numerator and denominator with integer arithmetic so that the
definition is kernel-reducible (`⌊100·q + 1/2⌋ / 100`; Python float rounding
breaks half-cent ties to even, a difference immaterial to every property
below).  `round2_eq_floor` below restates it through `Int.floor`. -/
def round2 (q : Rat) : Rat :=
  Rat.divInt ((200 * q.num + (q.den : Int)) / ((2 * q.den : Nat) : Int)) 100

/-- Decimal value of a digit string (inverse of `natStr`, used for
injectivity arguments about the composite string keys). -/
def valOf (l : List Char) : Nat := l.foldl (fun a c => 10 * a + (c.toNat - 48)) 0

/-- Draw functions of the pseudo-random source.  `randint a b` draws an
integer in `[a, b]` (both ends inclusive, as `random.randint`), `random` a
rational in `[0, 1)`, `uniform a b` a rational in `[a, b]`, and `choice`
one of the listed strings, each listed with its probability weight
(as `np.random.choice(values, p=...)`). -/
structure RNG (σ : Type) where
  randint : Nat → Nat → σ → Nat × σ
  random : σ → Rat × σ
  uniform : Rat → Rat → σ → Rat × σ
  choice : List (String × Rat) → σ → String × σ

/-- The documented contracts of the draw functions. -/
structure RNG.Lawful {σ : Type} (rng : RNG σ) : Prop where
  randint_le : ∀ a b s, a ≤ b → a ≤ (rng.randint a b s).1
  randint_ge : ∀ a b s, a ≤ b → (rng.randint a b s).1 ≤ b
  random_nonneg : ∀ s, 0 ≤ (rng.random s).1
  random_lt_one : ∀ s, (rng.random s).1 < 1
  uniform_le : ∀ a b s, a ≤ b → a ≤ (rng.uniform a b s).1
  uniform_ge : ∀ a b s, a ≤ b → (rng.uniform a b s).1 ≤ b
  choice_mem : ∀ l s, l ≠ [] → (rng.choice l s).1 ∈ l.map Prod.fst

/-- Behavioural ranges of a user segment (`user_segments` values in the
source): sessions per day, session duration in minutes, pages per session. -/
structure SegmentBehavior where
  daily_sessions : Nat × Nat
  session_duration : Nat × Nat
  pages_per_session : Nat × Nat
deriving DecidableEq

/-- The `user_segments` table of the source, as a lookup from segment name.
An unknown segment name yields `none` (the source would raise `KeyError`;
under `RNG.Lawful` the drawn segment is always one of the three keys). -/
def user_segments (segment : String) : Option SegmentBehavior :=
  if segment = "power_user" then some ⟨(3, 8), (15, 45), (10, 30)⟩
  else if segment = "regular_user" then some ⟨(1, 3), (5, 20), (3, 10)⟩
  else if segment = "casual_user" then some ⟨(0, 2), (2, 10), (1, 5)⟩
  else none

/-- A synthetic user profile (`users` entries of the source);
`acquisition_date` is in minutes since the epoch. -/
structure UserProfile where
  user_id : String
  segment : String
  acquisition_date : Nat
  country : String
  device_type : String
deriving DecidableEq

/-- One event row of the generated table.  `revenue` is `none` for page-view
events (whose dicts carry no `revenue` key, hence NaN in the DataFrame) and
`some r` for conversion events. -/
structure Event where
  event_id : String
  user_id : String
  session_id : String
  timestamp : Nat
  event_type : String
  page_category : String
  page_name : String
  time_on_page : Nat
  bounce : Bool
  device_type : String
  country : String
  referrer : String
  user_segment : String
  revenue : Option Rat
deriving DecidableEq

/-- Segment-draw distribution of the source (`np.random.choice` with
`p=[0.1, 0.6, 0.3]`). -/
def segment_choices : List (String × Rat) :=
  [("power_user", mkRat 1 10), ("regular_user", mkRat 6 10), ("casual_user", mkRat 3 10)]

/-- Country distribution of the source. -/
def country_choices : List (String × Rat) :=
  [("US", mkRat 4 10), ("UK", mkRat 15 100), ("CA", mkRat 1 10), ("DE", mkRat 1 10),
   ("FR", mkRat 1 10), ("JP", mkRat 1 10), ("AU", mkRat 1 20)]

/-- Device-type distribution of the source. -/
def device_choices : List (String × Rat) :=
  [("mobile", mkRat 5 10), ("desktop", mkRat 4 10), ("tablet", mkRat 1 10)]

/-- Page-category distribution for power users. -/
def page_categories_power : List (String × Rat) :=
  [("product", mkRat 3 10), ("search", mkRat 3 10), ("account", mkRat 2 10),
   ("checkout", mkRat 15 100), ("support", mkRat 1 20)]

/-- Page-category distribution for all other segments. -/
def page_categories_other : List (String × Rat) :=
  [("product", mkRat 4 10), ("search", mkRat 3 10), ("account", mkRat 1 10),
   ("checkout", mkRat 1 10), ("support", mkRat 1 10)]

/-- Referrer distribution for page-view events. -/
def referrer_choices : List (String × Rat) :=
  [("google", mkRat 3 10), ("facebook", mkRat 2 10), ("direct", mkRat 3 10),
   ("email", mkRat 1 10), ("other", mkRat 1 10)]

/-- One iteration of the profile loop of `generate_analytics_data`:
draw segment, acquisition offset, country and device for user number `i`
(in the source's draw order). -/
def genProfile {σ : Type} (rng : RNG σ) (now : Nat) (i : Nat) (s : σ) :
    UserProfile × σ :=
  let d₁ := rng.choice segment_choices s
  let d₂ := rng.randint 30 365 d₁.2
  let d₃ := rng.choice country_choices d₂.2
  let d₄ := rng.choice device_choices d₃.2
  ({ user_id := "user_" ++ pad4 i,
     segment := d₁.1,
     acquisition_date := now - 1440 * d₂.1,
     country := d₃.1,
     device_type := d₄.1 }, d₄.2)

/-- The profile loop `for i in range(num_users)`, generating profiles for
user numbers `i, i+1, ...`; the second `Nat` argument is the remaining count. -/
def genProfilesFrom {σ : Type} (rng : RNG σ) (now : Nat) :
    Nat → Nat → σ → List UserProfile × σ
  | _, 0, s => ([], s)
  | i, r + 1, s =>
    let p := genProfile rng now i s
    let rest := genProfilesFrom rng now (i + 1) r p.2
    (p.1 :: rest.1, rest.2)

/-- One iteration of the page loop: the page-view event for page number
`page_num` of a session, with the source's draw order (time offset, category,
page-name variant, time on page, referrer). -/
def genPageEvent {σ : Type} (rng : RNG σ) (user : UserProfile)
    (session_id : String) (session_start session_duration num_pages page_num : Nat)
    (s : σ) : Event × σ :=
  let d₁ := rng.randint 0 session_duration s
  let event_time := session_start + d₁.1
  let d₂ := rng.choice
    (if user.segment = "power_user" then page_categories_power else page_categories_other) d₁.2
  let d₃ := rng.randint 1 10 d₂.2
  let d₄ := rng.randint 10 300 d₃.2
  let d₅ := rng.choice referrer_choices d₄.2
  ({ event_id := session_id ++ "_" ++ natStr page_num,
     user_id := user.user_id,
     session_id := session_id,
     timestamp := event_time,
     event_type := "page_view",
     page_category := d₂.1,
     page_name := d₂.1 ++ "_page_" ++ natStr d₃.1,
     time_on_page := d₄.1,
     bounce := decide (page_num = 0) && decide (num_pages = 1),
     device_type := user.device_type,
     country := user.country,
     referrer := d₅.1,
     user_segment := user.segment,
     revenue := none }, d₅.2)

/-- The page loop `for page_num in range(num_pages)`, producing the page-view
events for page numbers `page_num, page_num+1, ...`; the last `Nat` argument
is the remaining count. -/
def genPagesFrom {σ : Type} (rng : RNG σ) (user : UserProfile)
    (session_id : String) (session_start session_duration num_pages : Nat) :
    Nat → Nat → σ → List Event × σ
  | _, 0, s => ([], s)
  | page_num, r + 1, s =>
    let p := genPageEvent rng user session_id session_start session_duration
      num_pages page_num s
    let rest := genPagesFrom rng user session_id session_start session_duration
      num_pages (page_num + 1) r p.2
    (p.1 :: rest.1, rest.2)

/-- The body of the session loop.  Returns the events newly appended for this
session (the caller extends the global list, mirroring `events.append` in the
source); `events` is the global list so far, read only by the conversion
referrer fallback `events[-1]['referrer'] if events else 'direct'`. -/
def genSessionTail {σ : Type} (rng : RNG σ) (user : UserProfile)
    (behavior : SegmentBehavior) (current_date session : Nat)
    (events : List Event) (s : σ) : List Event × σ :=
  let session_id := user.user_id ++ "_" ++ fmtDay current_date ++ "_" ++ natStr session
  let d₁ := rng.randint 0 23 s
  let d₂ := rng.randint 0 59 d₁.2
  let session_start := current_date + 60 * d₁.1 + d₂.1
  let d₃ := rng.randint behavior.session_duration.1 behavior.session_duration.2 d₂.2
  let session_duration := d₃.1
  let d₄ := rng.randint behavior.pages_per_session.1 behavior.pages_per_session.2 d₃.2
  let num_pages := d₄.1
  let pg := genPagesFrom rng user session_id session_start session_duration
    num_pages 0 num_pages d₄.2
  let pages := pg.1
  let all_events := events ++ pages
  let d₅ := rng.random pg.2
  if d₅.1 < mkRat 1 10 then
    let d₆ := rng.uniform 10 500 d₅.2
    let conversion_event : Event :=
      { event_id := session_id ++ "_conversion",
        user_id := user.user_id,
        session_id := session_id,
        timestamp := session_start + session_duration,
        event_type := "conversion",
        page_category := "checkout",
        page_name := "order_complete",
        time_on_page := 0,
        bounce := false,
        device_type := user.device_type,
        country := user.country,
        referrer := match all_events.getLast? with
          | some e => e.referrer
          | none => "direct",
        user_segment := user.segment,
        revenue := some (round2 d₆.1) }
    (pages ++ [conversion_event], d₆.2)
  else
    (pages, d₅.2)

/-- The session loop `for session in range(num_sessions)` for one day,
threading the global event list; sessions are numbered `session, session+1,
...` and the last `Nat` argument is the remaining count. -/
def genSessionsFrom {σ : Type} (rng : RNG σ) (user : UserProfile)
    (behavior : SegmentBehavior) (current_date : Nat) :
    Nat → Nat → List Event → σ → List Event × σ
  | _, 0, events, s => (events, s)
  | session, r + 1, events, s =>
    let t := genSessionTail rng user behavior current_date session events s
    genSessionsFrom rng user behavior current_date (session + 1) r (events ++ t.1) t.2

/-- The day loop `for day in range(days)` for one user: days are numbered
`day, day+1, ...` and the last `Nat` argument is the remaining count. -/
def genDaysFrom {σ : Type} (rng : RNG σ) (user : UserProfile)
    (behavior : SegmentBehavior) (start_date : Nat) :
    Nat → Nat → List Event → σ → List Event × σ
  | _, 0, events, s => (events, s)
  | day, r + 1, events, s =>
    let current_date := start_date + 1440 * day
    let d₁ := rng.randint behavior.daily_sessions.1 behavior.daily_sessions.2 s
    let e₁ := genSessionsFrom rng user behavior current_date 0 d₁.1 events d₁.2
    genDaysFrom rng user behavior start_date (day + 1) r e₁.1 e₁.2

/-- The user loop `for user in users`.  The behaviour lookup
`user_segments[user['segment']]` raises `KeyError` in the source for an
unknown segment; the embedding defaults to all-zero ranges, a case that is
unreachable under `RNG.Lawful` since the drawn segment is always a key. -/
def genUsersFrom {σ : Type} (rng : RNG σ) (days start_date : Nat) :
    List UserProfile → List Event → σ → List Event × σ
  | [], events, s => (events, s)
  | user :: rest, events, s =>
    let behavior := (user_segments user.segment).getD ⟨(0, 0), (0, 0), (0, 0)⟩
    let e₁ := genDaysFrom rng user behavior start_date 0 days events s
    genUsersFrom rng days start_date rest e₁.1 e₁.2

/-- The function `generate_analytics_data(num_users, days)`: generate the user profiles and
the full flat event list.  `now` is the wall-clock time (`datetime.now()`)
in minutes since the epoch; the source keeps the profile list local, the
embedding returns it alongside the events for analysis. -/
def generate_analytics_data {σ : Type} (rng : RNG σ) (num_users days now : Nat)
    (s : σ) : List UserProfile × List Event × σ :=
  let p := genProfilesFrom rng now 0 num_users s
  let start_date := now - 1440 * days
  let e := genUsersFrom rng days start_date p.1 [] p.2
  (p.1, e.1, e.2)

/-- Calendar date of an event (`df['timestamp'].dt.date`), as a day number. -/
def eventDate (e : Event) : Nat := e.timestamp / 1440

/-- The thirteen dict keys shared by every event dict, in source order. -/
def base_columns : List String :=
  ["event_id", "user_id", "session_id", "timestamp", "event_type",
   "page_category", "page_name", "time_on_page", "bounce", "device_type",
   "country", "referrer", "user_segment"]

/-- Columns of `pd.DataFrame(events)`: the union of the row dicts' keys in
first-appearance order; an empty list of rows yields a frame with no columns. -/
def dfColumns (events : List Event) : List String :=
  match events with
  | [] => []
  | _ => base_columns ++ (if events.any fun e => e.revenue.isSome then ["revenue"] else [])

/-- One row of the `daily_user_metrics` table. -/
structure DailyRow where
  date : Nat
  user_id : String
  sessions : Nat
  page_views : Nat
  total_time : Nat
deriving DecidableEq

/-- The `daily_metrics` aggregation of the source:
`df.groupby(['date','user_id']).agg({'session_id': nunique, 'event_id':
'count', 'time_on_page': 'sum'})` — one row per distinct (date, user) key;
`page_views` counts every event of the group (the source counts the
`event_id` column, so conversion events are included). -/
def daily_metrics (events : List Event) : List DailyRow :=
  ((events.map fun e => (eventDate e, e.user_id)).dedup).map fun k =>
    let grp := events.filter fun e => decide (eventDate e = k.1 ∧ e.user_id = k.2)
    { date := k.1,
      user_id := k.2,
      sessions := ((grp.map fun e => e.session_id).dedup).length,
      page_views := grp.length,
      total_time := (grp.map fun e => e.time_on_page).sum }

/-- One row of the `session_metrics` table; `session_duration` is in minutes
(the source divides a second count by 60; timestamps are whole minutes, so the
quotient is exact). -/
structure SessionRow where
  session_id : String
  user_id : String
  session_start : Nat
  session_end : Nat
  page_views : Nat
  bounced : Bool
  device_type : String
  country : String
  referrer : String
  session_duration : Int
deriving DecidableEq

/-- Minimum of a list of naturals (`min` aggregation over a group; groups are
never empty, the `[]` case is arbitrary). -/
def minNat : List Nat → Nat
  | [] => 0
  | x :: xs => xs.foldl Nat.min x

/-- Maximum of a list of naturals (`max` aggregation over a group). -/
def maxNat : List Nat → Nat
  | [] => 0
  | x :: xs => xs.foldl Nat.max x

/-- The `session_metrics` aggregation of the source: group by `session_id`;
`first` aggregations take the first event of the group in original sequence
order; `session_duration` is (end − start) in minutes. -/
def session_metrics (events : List Event) : List SessionRow :=
  ((events.map fun e => e.session_id).dedup).map fun sid =>
    let grp := events.filter fun e => decide (e.session_id = sid)
    let session_start := minNat (grp.map fun e => e.timestamp)
    let session_end := maxNat (grp.map fun e => e.timestamp)
    { session_id := sid,
      user_id := ((grp.head?).map fun e => e.user_id).getD "",
      session_start := session_start,
      session_end := session_end,
      page_views := grp.length,
      bounced := grp.any fun e => e.bounce,
      device_type := ((grp.head?).map fun e => e.device_type).getD "",
      country := ((grp.head?).map fun e => e.country).getD "",
      referrer := ((grp.head?).map fun e => e.referrer).getD "",
      session_duration := (session_end : Int) - (session_start : Int) }

/-- The script body after generation: add the derived calendar fields and
build the two aggregate tables.  `df['date'] = df['timestamp'].dt.date`
raises `KeyError` when the frame has no `timestamp` column (which is the case
exactly when the event list is empty). -/
def run_pipeline {σ : Type} (rng : RNG σ) (num_users days now : Nat) (s : σ) :
    Except String (List Event × List DailyRow × List SessionRow) :=
  let events := (generate_analytics_data rng num_users days now s).2.1
  if "timestamp" ∈ dfColumns events then
    Except.ok (events, daily_metrics events, session_metrics events)
  else
    Except.error "KeyError: timestamp"

/-- A concrete lawful random source used to instantiate the universal
theorems: every draw returns the lower end of its range (`choice` returns the
first listed value, `random` returns 0, so every session converts). -/
def constRNG : RNG Unit where
  randint a _ _ := (a, ())
  random _ := (0, ())
  uniform a _ _ := (a, ())
  choice l _ := ((l.head?.getD ("", 0)).1, ())

/-- The event list of the reference run: `constRNG`, one user, one day,
wall-clock time 1440 minutes (so the trailing window starts at minute 0). -/
def cexEvents : List Event :=
  (generate_analytics_data constRNG 1 1 1440 ()).2.1

/-- The bounce invariant: a bounce flag is set exactly on the page-view of a
session whose page-view count over the whole event list is one. -/
def BounceSpec (events : List Event) : Prop :=
  ∀ e ∈ events, e.bounce = true ↔
    (e.event_type = "page_view" ∧
      (events.filter fun x =>
        decide (x.session_id = e.session_id ∧ x.event_type = "page_view")).length = 1)

/-- The segment names actually generated: every profile's segment and every
event's `user_segment` is one of the three `user_segments` keys. -/
def SegmentSpec (users : List UserProfile) (events : List Event) : Prop :=
  (∀ u ∈ users, u.segment ∈ ["power_user", "regular_user", "casual_user"]) ∧
  (∀ e ∈ events, e.user_segment ∈ ["power_user", "regular_user", "casual_user"])

/-- Conversion referrer inheritance: every conversion event has a predecessor
in the event sequence, that predecessor is a page-view of the same session,
and the conversion's referrer is copied from it. -/
def ConvReferrerSpec (events : List Event) : Prop :=
  ∀ k, ∀ h : k < events.length, (events.get ⟨k, h⟩).event_type = "conversion" →
    ∃ h₁ : k - 1 < events.length, 0 < k ∧
      (events.get ⟨k - 1, h₁⟩).event_type = "page_view" ∧
      (events.get ⟨k - 1, h₁⟩).session_id = (events.get ⟨k, h⟩).session_id ∧
      (events.get ⟨k, h⟩).referrer = (events.get ⟨k - 1, h₁⟩).referrer

/-- Event-id uniqueness and derivability: the ids are pairwise distinct, and
each is the event's session id plus either a page index or `conversion`. -/
def EventIdSpec (events : List Event) : Prop :=
  (events.map fun e => e.event_id).Nodup ∧
  ∀ e ∈ events, (∃ p, e.event_id = e.session_id ++ "_" ++ natStr p) ∨
    e.event_id = e.session_id ++ "_conversion"

/-- Conversion-event field contract, plus at most one conversion per session. -/
def ConvFieldsSpec (events : List Event) : Prop :=
  (∀ e ∈ events, e.event_type = "conversion" →
    e.page_category = "checkout" ∧ e.page_name = "order_complete" ∧
    e.time_on_page = 0 ∧
    (∃ r, e.revenue = some r ∧ 10 ≤ r ∧ r ≤ 500) ∧
    (∃ sstart dur, e.timestamp = sstart + dur ∧
      ∀ e₂ ∈ events, e₂.session_id = e.session_id → e₂.event_type = "page_view" →
        sstart ≤ e₂.timestamp ∧ e₂.timestamp ≤ sstart + dur)) ∧
  (∀ sid : String,
    (events.filter fun x =>
      decide (x.session_id = sid ∧ x.event_type = "conversion")).length ≤ 1)

/-- Every session present in the output has at least one page-view event, and
no conversion event is ever emitted into an empty event list (so the `direct`
fallback branch is unreachable). -/
def SessionNonemptySpec (events : List Event) : Prop :=
  (∀ sid ∈ events.map fun e => e.session_id,
    ∃ e ∈ events, e.session_id = sid ∧ e.event_type = "page_view") ∧
  (∀ k, ∀ h : k < events.length, (events.get ⟨k, h⟩).event_type = "conversion" → 0 < k)

/-- Contract of one `daily_user_metrics` row: the (date, user) key has exactly
one row, whose `sessions` counts distinct session ids, `page_views` counts
every event of the group (conversions included), and `total_time` sums
time-on-page. -/
def DailyRowSpec (events : List Event) (d : Nat) (u : String) : Prop :=
  ∃ r ∈ daily_metrics events, r.date = d ∧ r.user_id = u ∧
    (∀ r₂ ∈ daily_metrics events, r₂.date = d → r₂.user_id = u → r₂ = r) ∧
    r.sessions = (((events.filter fun e => decide (eventDate e = d ∧ e.user_id = u)).map
      fun e => e.session_id).dedup).length ∧
    r.page_views = (events.filter fun e => decide (eventDate e = d ∧ e.user_id = u)).length ∧
    r.total_time = ((events.filter fun e => decide (eventDate e = d ∧ e.user_id = u)).map
      fun e => e.time_on_page).sum

/-- Contract of one `session_metrics` row: the session id has exactly one row;
start/end are the least/greatest event timestamp of the group, `page_views`
counts the group, `bounced` is the disjunction of the bounce flags, the
categorical fields come from the group's first event in sequence order, and
the duration is end − start in minutes, which is non-negative. -/
def SessionRowSpec (events : List Event) (sid : String) : Prop :=
  ∃ r ∈ session_metrics events, r.session_id = sid ∧
    (∀ r₂ ∈ session_metrics events, r₂.session_id = sid → r₂ = r) ∧
    (let grp := events.filter fun e => decide (e.session_id = sid)
     (r.session_start ∈ grp.map fun e => e.timestamp) ∧
     (∀ t ∈ grp.map fun e => e.timestamp, r.session_start ≤ t) ∧
     (r.session_end ∈ grp.map fun e => e.timestamp) ∧
     (∀ t ∈ grp.map fun e => e.timestamp, t ≤ r.session_end) ∧
     r.page_views = grp.length ∧
     (r.bounced = true ↔ ∃ e ∈ grp, e.bounce = true) ∧
     (∃ h : grp ≠ [],
       r.user_id = (grp.head h).user_id ∧
       r.device_type = (grp.head h).device_type ∧
       r.country = (grp.head h).country ∧
       r.referrer = (grp.head h).referrer) ∧
     r.session_duration = (r.session_end : Int) - (r.session_start : Int) ∧
     0 ≤ r.session_duration)

/-- The intra-session position suffix of an event id: a page index, or the
literal `conversion`. -/
def posStr : Option Nat → String
  | some p => natStr p
  | none => "conversion"

/-- The session-id string of session number `sess` on calendar day `d` of
user number `i`, as composed by the source. -/
def sidStr (i d sess : Nat) : String :=
  "user_" ++ pad4 i ++ "_" ++ natStr d ++ "_" ++ natStr sess

/-- The event-id string of the event at position `pos` of that session. -/
def eventKeyStr (i d sess : Nat) (pos : Option Nat) : String :=
  sidStr i d sess ++ "_" ++ posStr pos

/-- Everything the generator guarantees about the page-view event of page
number `j` of a session with `np` pages (under `RNG.Lawful`). -/
def PageShape (u : UserProfile) (sid : String) (sstart dur np j : Nat) (e : Event) : Prop :=
  e.event_id = sid ++ "_" ++ natStr j ∧
  e.user_id = u.user_id ∧
  e.session_id = sid ∧
  e.event_type = "page_view" ∧
  sstart ≤ e.timestamp ∧ e.timestamp ≤ sstart + dur ∧
  e.bounce = (decide (j = 0) && decide (np = 1)) ∧
  e.device_type = u.device_type ∧
  e.country = u.country ∧
  e.user_segment = u.segment ∧
  e.revenue = none ∧
  10 ≤ e.time_on_page ∧ e.time_on_page ≤ 300

/-- Everything the generator guarantees about a conversion event of a session
(under `RNG.Lawful`); `prev` is the event whose referrer it inherits. -/
def ConvShape (u : UserProfile) (sid : String) (sstart dur : Nat) (prev : Event)
    (e : Event) : Prop :=
  e.event_id = sid ++ "_conversion" ∧
  e.user_id = u.user_id ∧
  e.session_id = sid ∧
  e.timestamp = sstart + dur ∧
  e.event_type = "conversion" ∧
  e.page_category = "checkout" ∧
  e.page_name = "order_complete" ∧
  e.time_on_page = 0 ∧
  e.bounce = false ∧
  e.device_type = u.device_type ∧
  e.country = u.country ∧
  e.referrer = prev.referrer ∧
  e.user_segment = u.segment ∧
  ∃ r, e.revenue = some r ∧ 10 ≤ r ∧ r ≤ 500

/-- Everything the generator guarantees about the whole event block of one
session, keyed by (user number, day number, session number). -/
def BlockShape (u : UserProfile) (key : Nat × Nat × Nat) (blk : List Event) : Prop :=
  u.user_id = "user_" ++ pad4 key.1 ∧
  ∃ np sstart dur, ∃ pages tl : List Event,
    1 ≤ np ∧ blk = pages ++ tl ∧ pages.length = np ∧
    (∀ j, ∀ h : j < pages.length,
      PageShape u (sidStr key.1 key.2.1 key.2.2) sstart dur np j (pages.get ⟨j, h⟩)) ∧
    (tl = [] ∨ ∃ e, ∃ h : pages ≠ [], tl = [e] ∧
      ConvShape u (sidStr key.1 key.2.1 key.2.2) sstart dur (pages.getLast h) e)

/-- Predicate `ConvOk prev l`: within `l` (emitted after the events summarised by
`prev`, the last previously emitted event if any), every conversion event is
immediately preceded by a page-view of its own session whose referrer it
copies. -/
def ConvOk : Option Event → List Event → Prop
  | _, [] => True
  | prev, e :: rest =>
    (e.event_type = "conversion" → ∃ p, prev = some p ∧ p.event_type = "page_view" ∧
      p.session_id = e.session_id ∧ e.referrer = p.referrer) ∧
    ConvOk (some e) rest

/-- The last event of `prev?, l` taken together. -/
def lastOf (prev : Option Event) (l : List Event) : Option Event :=
  match l.getLast? with
  | some e => some e
  | none => prev

/-- A two-event hand-written input (one page-view and one conversion of the
same session on the same day) used to instantiate the aggregator theorems. -/
def pairEvents : List Event :=
  [{ event_id := "s1_0", user_id := "u1", session_id := "s1", timestamp := 5,
     event_type := "page_view", page_category := "product",
     page_name := "product_page_1", time_on_page := 30, bounce := true,
     device_type := "mobile", country := "US", referrer := "google",
     user_segment := "regular_user", revenue := none },
   { event_id := "s1_conversion", user_id := "u1", session_id := "s1", timestamp := 9,
     event_type := "conversion", page_category := "checkout",
     page_name := "order_complete", time_on_page := 0, bounce := false,
     device_type := "mobile", country := "US", referrer := "google",
     user_segment := "regular_user", revenue := some 10 }]

end Analytics

namespace Analytics

theorem constRNG_lawful : constRNG.Lawful where
  randint_le _ _ _ _ := le_refl _
  randint_ge _ _ _ h := h
  random_nonneg _ := le_refl 0
  random_lt_one _ := by norm_num [constRNG]
  uniform_le _ _ _ h := le_refl _
  uniform_ge _ _ _ h := h
  choice_mem l _ hl := by
    cases l with
    | nil => exact absurd rfl hl
    | cons a t => simp [constRNG]

/-- C1.  The generation pipeline is NOT a function of the seed and
(user_count, days) alone: the wall-clock time `datetime.now()` flows into the
generated table (timestamps, and the `%Y%m%d` component of every session and
event id), so two runs with the identical random stream and identical
(user_count, days) = (1, 1), started one day apart, produce different
event-id lists.  This contradicts the source's own reproducibility comment. -/
theorem generation_depends_on_wall_clock :
    ((generate_analytics_data constRNG 1 1 1440 ()).2.1.map fun e => e.event_id) ≠
      ((generate_analytics_data constRNG 1 1 2880 ()).2.1.map fun e => e.event_id) := by
  decide

/-- C2.  With `user_count = 0` the event list is empty, so the DataFrame has
no columns at all and the derived-field step `df['timestamp']` raises
`KeyError` — the pipeline does not complete with empty schema-valid tables,
for any day count, any random source, and any wall-clock time. -/
theorem pipeline_fails_on_zero_users {σ : Type} (rng : RNG σ) (days now : Nat) (s : σ) :
    run_pipeline rng 0 days now s = Except.error "KeyError: timestamp" := by
  rfl

/-- C3, counterexample.  In the reference run every event falls on day 0 of
user `user_0000`; the single `daily_user_metrics` row reports `page_views`
= 33, the total event count, while the user has only 30 page-view events
that day (the three conversion events are counted as well). -/
theorem daily_page_views_count_conversions :
    (daily_metrics cexEvents).map (fun r => (r.date, r.user_id, r.page_views)) =
        [(0, "user_0000", 33)] ∧
      (cexEvents.filter fun e =>
        decide (eventDate e = 0 ∧ e.user_id = "user_0000" ∧
          e.event_type = "page_view")).length = 30 ∧
      (33 : Nat) ≠ 30 := by
  refine ⟨by decide, by decide, by decide⟩

lemma foldl_min_le_init (xs : List Nat) (a : Nat) : xs.foldl Nat.min a ≤ a := by
  induction xs generalizing a with
  | nil => exact le_refl a
  | cons x t ih => exact le_trans (ih (Nat.min a x)) (Nat.min_le_left a x)

lemma foldl_min_le_mem (xs : List Nat) (a : Nat) : ∀ t ∈ xs, xs.foldl Nat.min a ≤ t := by
  induction xs generalizing a with
  | nil => intro t ht; cases ht
  | cons x s ih =>
    intro t ht
    rcases List.mem_cons.mp ht with h | h
    · subst h
      exact le_trans (foldl_min_le_init s (Nat.min a t)) (Nat.min_le_right a t)
    · exact ih (Nat.min a x) t h

lemma foldl_min_mem (xs : List Nat) (a : Nat) :
    xs.foldl Nat.min a = a ∨ xs.foldl Nat.min a ∈ xs := by
  induction xs generalizing a with
  | nil => exact Or.inl rfl
  | cons x s ih =>
    have hm : Nat.min a x = a ∨ Nat.min a x = x := by
      rcases Nat.le_total a x with h | h
      · exact Or.inl (Nat.min_eq_left h)
      · exact Or.inr (Nat.min_eq_right h)
    have hc : (x :: s).foldl Nat.min a = s.foldl Nat.min (Nat.min a x) := rfl
    rcases ih (Nat.min a x) with h | h
    · rcases hm with h2 | h2
      · exact Or.inl (by rw [hc, h, h2])
      · exact Or.inr (by rw [hc, h, h2]; exact List.mem_cons_self x s)
    · exact Or.inr (List.mem_cons_of_mem x (by rw [hc]; exact h))

lemma init_le_foldl_max (xs : List Nat) (a : Nat) : a ≤ xs.foldl Nat.max a := by
  induction xs generalizing a with
  | nil => exact le_refl a
  | cons x t ih => exact le_trans (Nat.le_max_left a x) (ih (Nat.max a x))

lemma mem_le_foldl_max (xs : List Nat) (a : Nat) : ∀ t ∈ xs, t ≤ xs.foldl Nat.max a := by
  induction xs generalizing a with
  | nil => intro t ht; cases ht
  | cons x s ih =>
    intro t ht
    rcases List.mem_cons.mp ht with h | h
    · subst h
      exact le_trans (Nat.le_max_right a t) (init_le_foldl_max s (Nat.max a t))
    · exact ih (Nat.max a x) t h

lemma foldl_max_mem (xs : List Nat) (a : Nat) :
    xs.foldl Nat.max a = a ∨ xs.foldl Nat.max a ∈ xs := by
  induction xs generalizing a with
  | nil => exact Or.inl rfl
  | cons x s ih =>
    have hm : Nat.max a x = a ∨ Nat.max a x = x := by
      rcases Nat.le_total a x with h | h
      · exact Or.inr (Nat.max_eq_right h)
      · exact Or.inl (Nat.max_eq_left h)
    have hc : (x :: s).foldl Nat.max a = s.foldl Nat.max (Nat.max a x) := rfl
    rcases ih (Nat.max a x) with h | h
    · rcases hm with h2 | h2
      · exact Or.inl (by rw [hc, h, h2])
      · exact Or.inr (by rw [hc, h, h2]; exact List.mem_cons_self x s)
    · exact Or.inr (List.mem_cons_of_mem x (by rw [hc]; exact h))

lemma head_map_getD {α : Type} (l : List Event) (h : l ≠ []) (f : Event → α) (a : α) :
    ((l.head?).map f).getD a = f (l.head h) := by
  cases l with
  | nil => exact absurd rfl h
  | cons x xs => rfl

lemma minNat_le (l : List Nat) : ∀ t ∈ l, minNat l ≤ t := by
  cases l with
  | nil => intro t ht; cases ht
  | cons x xs =>
    intro t ht
    rcases List.mem_cons.mp ht with h | h
    · subst h; exact foldl_min_le_init xs t
    · exact foldl_min_le_mem xs x t h

lemma minNat_mem (l : List Nat) (h : l ≠ []) : minNat l ∈ l := by
  cases l with
  | nil => exact absurd rfl h
  | cons x xs =>
    have hc : minNat (x :: xs) = xs.foldl Nat.min x := rfl
    rcases foldl_min_mem xs x with h2 | h2
    · rw [hc, h2]; exact List.mem_cons_self x xs
    · rw [hc]; exact List.mem_cons_of_mem x h2

lemma le_maxNat (l : List Nat) : ∀ t ∈ l, t ≤ maxNat l := by
  cases l with
  | nil => intro t ht; cases ht
  | cons x xs =>
    intro t ht
    rcases List.mem_cons.mp ht with h | h
    · subst h; exact init_le_foldl_max xs t
    · exact mem_le_foldl_max xs x t h

lemma maxNat_mem (l : List Nat) (h : l ≠ []) : maxNat l ∈ l := by
  cases l with
  | nil => exact absurd rfl h
  | cons x xs =>
    have hc : maxNat (x :: xs) = xs.foldl Nat.max x := rfl
    rcases foldl_max_mem xs x with h2 | h2
    · rw [hc, h2]; exact List.mem_cons_self x xs
    · rw [hc]; exact List.mem_cons_of_mem x h2

lemma valOf_append_singleton (l : List Char) (c : Char) :
    valOf (l ++ [c]) = 10 * valOf l + (c.toNat - 48) := by
  unfold valOf
  rw [List.foldl_append]
  rfl

lemma digitChar_toNat {d : Nat} (h : d < 10) : (Nat.digitChar d).toNat - 48 = d := by
  interval_cases d <;> rfl

lemma digitChar_ne_underscore {d : Nat} (h : d < 10) : Nat.digitChar d ≠ '_' := by
  interval_cases d <;> decide

lemma digitChar_ne_c {d : Nat} (h : d < 10) : Nat.digitChar d ≠ 'c' := by
  interval_cases d <;> decide

lemma natDigitsF_ne_nil : ∀ f n, n < f → natDigitsF f n ≠ [] := by
  intro f
  induction f with
  | zero => intro n hn; omega
  | succ f ih =>
    intro n _
    rw [natDigitsF]
    split
    · exact List.cons_ne_nil _ _
    · exact List.append_ne_nil_of_right_ne_nil _ (List.cons_ne_nil _ _)

lemma valOf_natDigitsF : ∀ f n, n < f → valOf (natDigitsF f n) = n := by
  intro f
  induction f with
  | zero => intro n hn; omega
  | succ f ih =>
    intro n hn
    rw [natDigitsF]
    split
    · rename_i h10
      show 10 * 0 + ((Nat.digitChar n).toNat - 48) = n
      rw [Nat.mul_zero, Nat.zero_add, digitChar_toNat h10]
    · rename_i h10
      push_neg at h10
      have hdiv : n / 10 < f := by
        have h1 : n / 10 < n := Nat.div_lt_self (by omega) (by omega)
        omega
      rw [valOf_append_singleton, ih (n / 10) hdiv, digitChar_toNat (Nat.mod_lt n (by omega))]
      omega

lemma natDigitsF_chars : ∀ f n, n < f → ∀ c ∈ natDigitsF f n, ∃ d, d < 10 ∧ c = Nat.digitChar d := by
  intro f
  induction f with
  | zero => intro n hn; omega
  | succ f ih =>
    intro n hn c hc
    rw [natDigitsF] at hc
    split at hc
    · rename_i h10
      rcases List.mem_singleton.mp hc with rfl
      exact ⟨n, h10, rfl⟩
    · rename_i h10
      push_neg at h10
      have hdiv : n / 10 < f := by
        have h1 : n / 10 < n := Nat.div_lt_self (by omega) (by omega)
        omega
      rcases List.mem_append.mp hc with h | h
      · exact ih (n / 10) hdiv c h
      · rcases List.mem_singleton.mp h with rfl
        exact ⟨n % 10, Nat.mod_lt n (by omega), rfl⟩

lemma valOf_natStr (n : Nat) : valOf (natStr n).data = n :=
  valOf_natDigitsF (n + 1) n (Nat.lt_succ_self n)

lemma natStr_data_chars (n : Nat) :
    ∀ c ∈ (natStr n).data, ∃ d, d < 10 ∧ c = Nat.digitChar d :=
  natDigitsF_chars (n + 1) n (Nat.lt_succ_self n)

lemma natStr_inj {a b : Nat} (h : natStr a = natStr b) : a = b := by
  have hd : (natStr a).data = (natStr b).data := by rw [h]
  have := congrArg valOf hd
  rwa [valOf_natStr, valOf_natStr] at this

lemma valOf_replicate_zero_append (k : Nat) (l : List Char) :
    valOf (List.replicate k '0' ++ l) = valOf l := by
  induction k with
  | zero => rfl
  | succ k ih =>
    have hstep : List.replicate (k + 1) '0' ++ l = '0' :: (List.replicate k '0' ++ l) := by
      rw [List.replicate_succ]
      rfl
    rw [hstep]
    show valOf (List.replicate k '0' ++ l) = valOf l
    exact ih

lemma valOf_pad4 (i : Nat) : valOf (pad4 i).data = i := by
  show valOf (List.replicate (4 - (natDigitsF (i + 1) i).length) '0' ++ natDigitsF (i + 1) i) = i
  rw [valOf_replicate_zero_append]
  exact valOf_natDigitsF (i + 1) i (Nat.lt_succ_self i)

lemma pad4_data_chars (i : Nat) :
    ∀ c ∈ (pad4 i).data, ∃ d, d < 10 ∧ c = Nat.digitChar d := by
  intro c hc
  have hc2 : c ∈ List.replicate (4 - (natDigitsF (i + 1) i).length) '0' ++ natDigitsF (i + 1) i := hc
  rcases List.mem_append.mp hc2 with h | h
  · have : c = '0' := List.eq_of_mem_replicate h
    exact ⟨0, by omega, by rw [this]; rfl⟩
  · exact natDigitsF_chars (i + 1) i (Nat.lt_succ_self i) c h

lemma digitish_ne_underscore {l : List Char}
    (h : ∀ c ∈ l, ∃ d, d < 10 ∧ c = Nat.digitChar d) : ∀ c ∈ l, c ≠ '_' := by
  intro c hc
  obtain ⟨d, hd, rfl⟩ := h c hc
  exact digitChar_ne_underscore hd

lemma split_at_underscore : ∀ l₁ l₂ r₁ r₂ : List Char,
    (∀ c ∈ l₁, c ≠ '_') → (∀ c ∈ l₂, c ≠ '_') →
    l₁ ++ '_' :: r₁ = l₂ ++ '_' :: r₂ → l₁ = l₂ ∧ r₁ = r₂ := by
  intro l₁
  induction l₁ with
  | nil =>
    intro l₂ r₁ r₂ _ h2 heq
    cases l₂ with
    | nil => simpa using heq
    | cons b t =>
      injection heq with hb _
      exact absurd hb.symm (h2 b (List.mem_cons_self b t))
  | cons a t ih =>
    intro l₂ r₁ r₂ h1 h2 heq
    cases l₂ with
    | nil =>
      injection heq with hb _
      exact absurd hb (h1 a (List.mem_cons_self a t))
    | cons b t₂ =>
      injection heq with hb ht
      obtain ⟨h3, h4⟩ := ih t₂ r₁ r₂ (fun c hc => h1 c (List.mem_cons_of_mem a hc))
        (fun c hc => h2 c (List.mem_cons_of_mem b hc)) ht
      exact ⟨by rw [hb, h3], h4⟩

lemma data_append (a b : String) : (a ++ b).data = a.data ++ b.data := rfl

lemma eventKeyStr_data (i d sess : Nat) (p : Option Nat) :
    (eventKeyStr i d sess p).data =
      "user_".data ++ ((pad4 i).data ++ '_' :: ((natStr d).data ++ '_' ::
        ((natStr sess).data ++ '_' :: (posStr p).data))) := by
  show ("user_".data ++ (pad4 i).data ++ "_".data ++ (natStr d).data ++ "_".data ++
      (natStr sess).data ++ "_".data ++ (posStr p).data) = _
  simp

lemma posStr_data_inj {p p₂ : Option Nat} (h : (posStr p).data = (posStr p₂).data) :
    p = p₂ := by
  cases p with
  | some a =>
    cases p₂ with
    | some b =>
      have h2 : (natStr a).data = (natStr b).data := h
      have h3 := congrArg valOf h2
      rw [valOf_natStr, valOf_natStr] at h3
      rw [h3]
    | none =>
      exfalso
      have h2 : (natStr a).data = (posStr (none : Option Nat)).data := h
      cases hnd : (natStr a).data with
      | nil => exact natDigitsF_ne_nil (a + 1) a (Nat.lt_succ_self a) hnd
      | cons c0 t =>
        have hc0 : c0 ∈ (natStr a).data := by rw [hnd]; exact List.mem_cons_self c0 t
        obtain ⟨dd, hdd, hcd⟩ := natStr_data_chars a c0 hc0
        rw [hnd] at h2
        have h3 := congrArg List.head? h2
        rw [show ((posStr (none : Option Nat)).data.head?) = some 'c' from rfl] at h3
        have hhead : c0 = 'c' := by simpa using h3
        rw [hcd] at hhead
        exact digitChar_ne_c hdd hhead
  | none =>
    cases p₂ with
    | some b =>
      exfalso
      have h2 : (posStr (none : Option Nat)).data = (natStr b).data := h
      cases hnd : (natStr b).data with
      | nil => exact natDigitsF_ne_nil (b + 1) b (Nat.lt_succ_self b) hnd
      | cons c0 t =>
        have hc0 : c0 ∈ (natStr b).data := by rw [hnd]; exact List.mem_cons_self c0 t
        obtain ⟨dd, hdd, hcd⟩ := natStr_data_chars b c0 hc0
        rw [hnd] at h2
        have h3 := congrArg List.head? h2
        rw [show ((posStr (none : Option Nat)).data.head?) = some 'c' from rfl] at h3
        have hhead : c0 = 'c' := by simpa using h3.symm
        rw [hcd] at hhead
        exact digitChar_ne_c hdd hhead
    | none => rfl

lemma eventKeyStr_inj {i d sess i₂ d₂ sess₂ : Nat} {p p₂ : Option Nat}
    (h : eventKeyStr i d sess p = eventKeyStr i₂ d₂ sess₂ p₂) :
    i = i₂ ∧ d = d₂ ∧ sess = sess₂ ∧ p = p₂ := by
  have hd : (eventKeyStr i d sess p).data = (eventKeyStr i₂ d₂ sess₂ p₂).data := by rw [h]
  rw [eventKeyStr_data, eventKeyStr_data] at hd
  have hd2 := List.append_cancel_left hd
  obtain ⟨hi, hrest⟩ := split_at_underscore _ _ _ _
    (digitish_ne_underscore (pad4_data_chars i))
    (digitish_ne_underscore (pad4_data_chars i₂)) hd2
  obtain ⟨hdy, hrest₂⟩ := split_at_underscore _ _ _ _
    (digitish_ne_underscore (natStr_data_chars d))
    (digitish_ne_underscore (natStr_data_chars d₂)) hrest
  obtain ⟨hsess, hpos⟩ := split_at_underscore _ _ _ _
    (digitish_ne_underscore (natStr_data_chars sess))
    (digitish_ne_underscore (natStr_data_chars sess₂)) hrest₂
  refine ⟨?_, ?_, ?_, posStr_data_inj hpos⟩
  · have := congrArg valOf hi
    rwa [valOf_pad4, valOf_pad4] at this
  · have := congrArg valOf hdy
    rwa [valOf_natStr, valOf_natStr] at this
  · have := congrArg valOf hsess
    rwa [valOf_natStr, valOf_natStr] at this

lemma sidStr_inj {i d sess i₂ d₂ sess₂ : Nat}
    (h : sidStr i d sess = sidStr i₂ d₂ sess₂) : i = i₂ ∧ d = d₂ ∧ sess = sess₂ := by
  have h2 : eventKeyStr i d sess (some 0) = eventKeyStr i₂ d₂ sess₂ (some 0) := by
    rw [eventKeyStr, eventKeyStr, h]
  obtain ⟨a, b, c, _⟩ := eventKeyStr_inj h2
  exact ⟨a, b, c⟩

lemma user_segments_ranges {seg : String} {beh : SegmentBehavior}
    (h : user_segments seg = some beh) :
    1 ≤ beh.pages_per_session.1 ∧ beh.pages_per_session.1 ≤ beh.pages_per_session.2 ∧
      beh.session_duration.1 ≤ beh.session_duration.2 ∧
      beh.daily_sessions.1 ≤ beh.daily_sessions.2 := by
  unfold user_segments at h
  split at h
  · cases h; decide
  · split at h
    · cases h; decide
    · split at h
      · cases h; decide
      · cases h

lemma genProfilesFrom_length {σ : Type} (rng : RNG σ) (now : Nat) :
    ∀ i r s, (genProfilesFrom rng now i r s).1.length = r := by
  intro i r
  induction r generalizing i with
  | zero => intro s; rfl
  | succ r ih =>
    intro s
    show ((genProfile rng now i s).1 ::
      (genProfilesFrom rng now (i + 1) r (genProfile rng now i s).2).1).length = r + 1
    rw [List.length_cons, ih (i + 1)]

lemma genProfilesFrom_get {σ : Type} (rng : RNG σ) (now : Nat) :
    ∀ r i s j, ∀ h : j < (genProfilesFrom rng now i r s).1.length,
      ((genProfilesFrom rng now i r s).1.get ⟨j, h⟩).user_id = "user_" ++ pad4 (i + j) := by
  intro r
  induction r with
  | zero => intro i s j h; simp [genProfilesFrom] at h
  | succ r ih =>
    intro i s j h
    cases j with
    | zero => rfl
    | succ j =>
      have h₂ : j < (genProfilesFrom rng now (i + 1) r (genProfile rng now i s).2).1.length := by
        have := h
        rw [genProfilesFrom_length rng now i (r + 1) s] at this
        rw [genProfilesFrom_length]
        omega
      have := ih (i + 1) (genProfile rng now i s).2 j h₂
      show ((genProfilesFrom rng now (i + 1) r (genProfile rng now i s).2).1.get ⟨j, h₂⟩).user_id
        = "user_" ++ pad4 (i + (j + 1))
      rw [this]
      have harith : i + 1 + j = i + (j + 1) := by omega
      rw [harith]

lemma genProfilesFrom_segment {σ : Type} {rng : RNG σ} (hl : rng.Lawful) (now : Nat) :
    ∀ r i s, ∀ u ∈ (genProfilesFrom rng now i r s).1,
      u.segment ∈ ["power_user", "regular_user", "casual_user"] := by
  intro r
  induction r with
  | zero => intro i s u hu; simp [genProfilesFrom] at hu
  | succ r ih =>
    intro i s u hu
    have hu₂ : u = (genProfile rng now i s).1 ∨
        u ∈ (genProfilesFrom rng now (i + 1) r (genProfile rng now i s).2).1 :=
      List.mem_cons.mp hu
    rcases hu₂ with rfl | h
    · have := hl.choice_mem segment_choices s (by simp [segment_choices])
      simpa [segment_choices, genProfile] using this
    · exact ih (i + 1) (genProfile rng now i s).2 u h

lemma round2_eq_floor (q : Rat) :
    round2 q = Rat.divInt ⌊q * 100 + mkRat 1 2⌋ 100 := by
  have hdpos : (0 : Rat) < (q.den : Rat) := by exact_mod_cast q.den_pos
  have h2d : ((2 * q.den : Nat) : Rat) ≠ 0 := by
    have h0 : (0 : Rat) < ((2 * q.den : Nat) : Rat) := by push_cast; linarith
    exact ne_of_gt h0
  have hq := Rat.mul_den_eq_num q
  have hx : q * 100 + mkRat 1 2 =
      ((200 * q.num + (q.den : Int) : Int) : Rat) / ((2 * q.den : Nat) : Rat) := by
    rw [Rat.mkRat_eq_div, eq_div_iff h2d]
    push_cast
    linear_combination (200 : Rat) * hq
  rw [round2, hx, Rat.floor_intCast_div_natCast]

lemma round2_bounds {q : Rat} (h10 : 10 ≤ q) (h500 : q ≤ 500) :
    10 ≤ round2 q ∧ round2 q ≤ 500 := by
  rw [round2_eq_floor, Rat.divInt_eq_div]
  have hhalf : (0 : Rat) ≤ mkRat 1 2 ∧ (mkRat 1 2 : Rat) < 1 := by
    rw [Rat.mkRat_eq_div]
    norm_num
  have hlow : (1000 : Int) ≤ ⌊q * 100 + mkRat 1 2⌋ := by
    rw [Int.le_floor]
    push_cast
    nlinarith [hhalf.1]
  have hhigh : ⌊q * 100 + mkRat 1 2⌋ ≤ 50000 := by
    have h1 : (⌊q * 100 + mkRat 1 2⌋ : Rat) ≤ q * 100 + mkRat 1 2 := Int.floor_le _
    have h2 : q * 100 + mkRat 1 2 < 50001 := by nlinarith [hhalf.2]
    have h3 : (⌊q * 100 + mkRat 1 2⌋ : Rat) < ((50001 : Int) : Rat) := by
      push_cast
      linarith
    have h4 : ⌊q * 100 + mkRat 1 2⌋ < 50001 := by exact_mod_cast h3
    omega
  constructor
  · rw [le_div_iff₀ (by norm_num : (0 : Rat) < ((100 : Int) : Rat))]
    have h5 : ((1000 : Int) : Rat) ≤ (⌊q * 100 + mkRat 1 2⌋ : Rat) := by exact_mod_cast hlow
    calc (10 : Rat) * ((100 : Int) : Rat) = ((1000 : Int) : Rat) := by norm_num
    _ ≤ (⌊q * 100 + mkRat 1 2⌋ : Rat) := h5
  · rw [div_le_iff₀ (by norm_num : (0 : Rat) < ((100 : Int) : Rat))]
    have h5 : ((⌊q * 100 + mkRat 1 2⌋ : Int) : Rat) ≤ ((50000 : Int) : Rat) := by exact_mod_cast hhigh
    calc ((⌊q * 100 + mkRat 1 2⌋ : Int) : Rat) ≤ ((50000 : Int) : Rat) := h5
    _ = 500 * ((100 : Int) : Rat) := by norm_num

lemma lastOf_nil (p : Option Event) : lastOf p [] = p := rfl

lemma lastOf_of_ne_nil (p : Option Event) (l : List Event) (h : l ≠ []) :
    lastOf p l = some (l.getLast h) := by
  unfold lastOf
  rw [List.getLast?_eq_getLast l h]

lemma lastOf_cons (p : Option Event) (e : Event) (t : List Event) :
    lastOf p (e :: t) = lastOf (some e) t := by
  cases t with
  | nil => rfl
  | cons x xs =>
    rw [lastOf_of_ne_nil p _ (List.cons_ne_nil e (x :: xs)),
      lastOf_of_ne_nil (some e) _ (List.cons_ne_nil x xs),
      List.getLast_cons (List.cons_ne_nil x xs)]

lemma convOk_append (p : Option Event) (l₁ l₂ : List Event) :
    ConvOk p (l₁ ++ l₂) ↔ ConvOk p l₁ ∧ ConvOk (lastOf p l₁) l₂ := by
  induction l₁ generalizing p with
  | nil => simp [ConvOk, lastOf_nil]
  | cons e t ih =>
    rw [List.cons_append]
    simp only [ConvOk]
    rw [ih (some e), lastOf_cons]
    tauto

lemma convOk_of_pageviews (p : Option Event) (l : List Event)
    (h : ∀ e ∈ l, e.event_type = "page_view") : ConvOk p l := by
  induction l generalizing p with
  | nil => trivial
  | cons e t ih =>
    refine ⟨?_, ih (some e) fun x hx => h x (List.mem_cons_of_mem e hx)⟩
    intro hconv
    have hpv := h e (List.mem_cons_self e t)
    rw [hpv] at hconv
    exact absurd hconv (by decide)

lemma genPagesFrom_length {σ : Type} (rng : RNG σ) (user : UserProfile) (sid : String)
    (sstart dur np : Nat) :
    ∀ r pn s, (genPagesFrom rng user sid sstart dur np pn r s).1.length = r := by
  intro r
  induction r with
  | zero => intro pn s; rfl
  | succ r ih =>
    intro pn s
    show ((genPageEvent rng user sid sstart dur np pn s).1 ::
      (genPagesFrom rng user sid sstart dur np (pn + 1) r
        (genPageEvent rng user sid sstart dur np pn s).2).1).length = r + 1
    rw [List.length_cons, ih]

lemma genPageEvent_shape {σ : Type} {rng : RNG σ} (hl : rng.Lawful) (user : UserProfile)
    (sid : String) (sstart dur np pn : Nat) (s : σ) :
    PageShape user sid sstart dur np pn (genPageEvent rng user sid sstart dur np pn s).1 := by
  refine ⟨rfl, rfl, rfl, rfl, Nat.le_add_right _ _, ?_, rfl, rfl, rfl, rfl, rfl, ?_, ?_⟩
  · have h := hl.randint_ge 0 dur s (Nat.zero_le dur)
    show sstart + (rng.randint 0 dur s).1 ≤ sstart + dur
    omega
  · exact hl.randint_le 10 300 _ (by omega)
  · exact hl.randint_ge 10 300 _ (by omega)

lemma genPagesFrom_get {σ : Type} {rng : RNG σ} (hl : rng.Lawful) (user : UserProfile)
    (sid : String) (sstart dur np : Nat) :
    ∀ r pn s j, ∀ h : j < (genPagesFrom rng user sid sstart dur np pn r s).1.length,
      PageShape user sid sstart dur np (pn + j)
        ((genPagesFrom rng user sid sstart dur np pn r s).1.get ⟨j, h⟩) := by
  intro r
  induction r with
  | zero => intro pn s j h; simp [genPagesFrom] at h
  | succ r ih =>
    intro pn s j h
    cases j with
    | zero => exact genPageEvent_shape hl user sid sstart dur np pn s
    | succ j =>
      have h₂ : j < (genPagesFrom rng user sid sstart dur np (pn + 1) r
          (genPageEvent rng user sid sstart dur np pn s).2).1.length := by
        rw [genPagesFrom_length]
        have h3 := h
        rw [genPagesFrom_length] at h3
        omega
      have hs := ih (pn + 1) (genPageEvent rng user sid sstart dur np pn s).2 j h₂
      have harith : pn + 1 + j = pn + (j + 1) := by omega
      rw [harith] at hs
      exact hs

lemma genPagesFrom_mem {σ : Type} {rng : RNG σ} (hl : rng.Lawful) (user : UserProfile)
    (sid : String) (sstart dur np r pn : Nat) (s : σ) :
    ∀ e ∈ (genPagesFrom rng user sid sstart dur np pn r s).1,
      ∃ j, pn ≤ j ∧ j < pn + r ∧ PageShape user sid sstart dur np j e := by
  intro e he
  obtain ⟨⟨j, hj⟩, hget⟩ := List.mem_iff_get.mp he
  have hshape := genPagesFrom_get hl user sid sstart dur np r pn s j hj
  rw [hget] at hshape
  have hlen := genPagesFrom_length rng user sid sstart dur np r pn s
  exact ⟨pn + j, Nat.le_add_right _ _, by omega, hshape⟩

lemma genSessionTail_shape {σ : Type} {rng : RNG σ} (hl : rng.Lawful) {user : UserProfile}
    {beh : SegmentBehavior} (i : Nat) (hu : user.user_id = "user_" ++ pad4 i)
    (hbeh : user_segments user.segment = some beh) (cd sess : Nat)
    (events : List Event) (s : σ) :
    BlockShape user (i, cd / 1440, sess) (genSessionTail rng user beh cd sess events s).1 ∧
      ∀ q : Option Event, ConvOk q (genSessionTail rng user beh cd sess events s).1 := by
  obtain ⟨hp1, hp2, hd12, _⟩ := user_segments_ranges hbeh
  set sid := user.user_id ++ "_" ++ fmtDay cd ++ "_" ++ natStr sess with hsiddef
  have hsid : sid = sidStr i (cd / 1440) sess := by rw [hsiddef, hu]; rfl
  set a := rng.randint 0 23 s with ha
  set b := rng.randint 0 59 a.2 with hb
  set sstart := cd + 60 * a.1 + b.1 with hss
  set c := rng.randint beh.session_duration.1 beh.session_duration.2 b.2 with hcc
  set d := rng.randint beh.pages_per_session.1 beh.pages_per_session.2 c.2 with hdd
  set pg := genPagesFrom rng user sid sstart c.1 d.1 0 d.1 d.2 with hpg
  have hnp1 : 1 ≤ d.1 := le_trans hp1 (hl.randint_le _ _ _ hp2)
  have hlen : pg.1.length = d.1 := genPagesFrom_length rng user sid sstart c.1 d.1 d.1 0 d.2
  have hpne : pg.1 ≠ [] := by
    rw [← List.length_pos_iff_ne_nil, hlen]
    omega
  have hgl : (events ++ pg.1).getLast? = some (pg.1.getLast hpne) := by
    rw [List.getLast?_append, List.getLast?_eq_getLast pg.1 hpne]
    rfl
  set convE : Event :=
    { event_id := sid ++ "_conversion",
      user_id := user.user_id,
      session_id := sid,
      timestamp := sstart + c.1,
      event_type := "conversion",
      page_category := "checkout",
      page_name := "order_complete",
      time_on_page := 0,
      bounce := false,
      device_type := user.device_type,
      country := user.country,
      referrer := match (events ++ pg.1).getLast? with
        | some e => e.referrer
        | none => "direct",
      user_segment := user.segment,
      revenue := some (round2 (rng.uniform 10 500 (rng.random pg.2).2).1) } with hconvE
  have href : convE.referrer = (pg.1.getLast hpne).referrer := by
    rw [hconvE]
    show (match (events ++ pg.1).getLast? with
      | some e => e.referrer
      | none => "direct") = (pg.1.getLast hpne).referrer
    rw [hgl]
  have hpagesshape : ∀ j, ∀ hj : j < pg.1.length,
      PageShape user (sidStr i (cd / 1440) sess) sstart c.1 d.1 j (pg.1.get ⟨j, hj⟩) := by
    intro j hj
    have hg := genPagesFrom_get hl user sid sstart c.1 d.1 d.1 0 d.2 j hj
    rw [Nat.zero_add] at hg
    rw [← hsid]
    exact hg
  have hpv : ∀ e ∈ pg.1, e.event_type = "page_view" := by
    intro e he
    obtain ⟨j, _, _, hps⟩ := genPagesFrom_mem hl user sid sstart c.1 d.1 d.1 0 d.2 e he
    exact hps.2.2.2.1
  have hlastshape : (pg.1.getLast hpne).event_type = "page_view" ∧
      (pg.1.getLast hpne).session_id = sid := by
    have hmem : pg.1.getLast hpne ∈ pg.1 := List.getLast_mem hpne
    obtain ⟨j, _, _, hps⟩ := genPagesFrom_mem hl user sid sstart c.1 d.1 d.1 0 d.2 _ hmem
    exact ⟨hps.2.2.2.1, by rw [hps.2.2.1, hsid]⟩
  by_cases hc : (rng.random pg.2).1 < mkRat 1 10
  · have htail : (genSessionTail rng user beh cd sess events s).1 = pg.1 ++ [convE] := by
      show (if (rng.random pg.2).1 < mkRat 1 10 then
          (pg.1 ++ [convE], (rng.uniform 10 500 (rng.random pg.2).2).2)
        else (pg.1, (rng.random pg.2).2)).1 = pg.1 ++ [convE]
      rw [if_pos hc]
    rw [htail]
    constructor
    · refine ⟨hu, d.1, sstart, c.1, pg.1, [convE], hnp1, rfl, hlen, hpagesshape, ?_⟩
      refine Or.inr ⟨convE, hpne, rfl, ?_⟩
      refine ⟨?_, rfl, ?_, rfl, rfl, rfl, rfl, rfl, rfl, rfl, rfl, href, rfl, ?_⟩
      · rw [hconvE]
        show sid ++ "_conversion" = sidStr i (cd / 1440) sess ++ "_conversion"
        rw [hsid]
      · rw [hconvE]
        show sid = sidStr i (cd / 1440) sess
        exact hsid
      · have h10 : (10 : Rat) ≤ (rng.uniform 10 500 (rng.random pg.2).2).1 :=
          hl.uniform_le 10 500 _ (by norm_num)
        have h500 : (rng.uniform 10 500 (rng.random pg.2).2).1 ≤ 500 :=
          hl.uniform_ge 10 500 _ (by norm_num)
        obtain ⟨hlo, hhi⟩ := round2_bounds h10 h500
        exact ⟨round2 (rng.uniform 10 500 (rng.random pg.2).2).1, rfl, hlo, hhi⟩
    · intro q
      rw [convOk_append]
      refine ⟨convOk_of_pageviews q pg.1 hpv, ?_⟩
      refine ⟨?_, trivial⟩
      intro _
      refine ⟨pg.1.getLast hpne, lastOf_of_ne_nil _ _ hpne, hlastshape.1, ?_, ?_⟩
      · rw [hlastshape.2]
      · exact href
  · have htail : (genSessionTail rng user beh cd sess events s).1 = pg.1 := by
      show (if (rng.random pg.2).1 < mkRat 1 10 then
          (pg.1 ++ [convE], (rng.uniform 10 500 (rng.random pg.2).2).2)
        else (pg.1, (rng.random pg.2).2)).1 = pg.1
      rw [if_neg hc]
    rw [htail]
    constructor
    · exact ⟨hu, d.1, sstart, c.1, pg.1, [], hnp1, (List.append_nil pg.1).symm, hlen,
        hpagesshape, Or.inl rfl⟩
    · intro q
      exact convOk_of_pageviews q pg.1 hpv

lemma convOk_flatten : ∀ bs : List ((Nat × Nat × Nat) × List Event),
    (∀ b ∈ bs, ∀ q, ConvOk q b.2) → ∀ q, ConvOk q (bs.map Prod.snd).flatten := by
  intro bs
  induction bs with
  | nil => intro _ q; trivial
  | cons b t ih =>
    intro h q
    have hstep : (List.map Prod.snd (b :: t)).flatten = b.2 ++ (t.map Prod.snd).flatten := rfl
    rw [hstep, convOk_append]
    exact ⟨h b (List.mem_cons_self b t) q, ih (fun x hx => h x (List.mem_cons_of_mem b hx)) _⟩

lemma genSessionsFrom_decomp {σ : Type} {rng : RNG σ} (hl : rng.Lawful) {user : UserProfile}
    {beh : SegmentBehavior} (i : Nat) (hu : user.user_id = "user_" ++ pad4 i)
    (hbeh : user_segments user.segment = some beh) (cd : Nat) :
    ∀ r sess events s, ∃ bs : List ((Nat × Nat × Nat) × List Event),
      (genSessionsFrom rng user beh cd sess r events s).1 = events ++ (bs.map Prod.snd).flatten ∧
      (∀ b ∈ bs, BlockShape user b.1 b.2) ∧
      (∀ b ∈ bs, b.1.1 = i ∧ b.1.2.1 = cd / 1440 ∧ sess ≤ b.1.2.2 ∧ b.1.2.2 < sess + r) ∧
      (bs.map Prod.fst).Nodup ∧
      (∀ b ∈ bs, ∀ q, ConvOk q b.2) := by
  intro r
  induction r with
  | zero =>
    intro sess events s
    exact ⟨[], by simp [genSessionsFrom], by simp, by simp, by simp, by simp⟩
  | succ r ih =>
    intro sess events s
    set t := genSessionTail rng user beh cd sess events s with ht
    obtain ⟨hshape, hconv⟩ := genSessionTail_shape hl i hu hbeh cd sess events s
    obtain ⟨bs', heq, hsh', hkey', hnd', hcv'⟩ := ih (sess + 1) (events ++ t.1) t.2
    refine ⟨((i, cd / 1440, sess), t.1) :: bs', ?_, ?_, ?_, ?_, ?_⟩
    · show (genSessionsFrom rng user beh cd (sess + 1) r (events ++ t.1) t.2).1 = _
      rw [heq]
      simp [List.append_assoc]
    · intro b hb
      rcases List.mem_cons.mp hb with rfl | hb
      · exact hshape
      · exact hsh' b hb
    · intro b hb
      rcases List.mem_cons.mp hb with rfl | hb
      · exact ⟨rfl, rfl, le_refl _, by show sess < sess + (r + 1); omega⟩
      · obtain ⟨h1, h2, h3, h4⟩ := hkey' b hb
        exact ⟨h1, h2, by omega, by omega⟩
    · rw [List.map_cons, List.nodup_cons]
      refine ⟨?_, hnd'⟩
      intro hmem
      obtain ⟨b, hb, hbeq⟩ := List.mem_map.mp hmem
      obtain ⟨_, _, h3, _⟩ := hkey' b hb
      have hsz : b.1.2.2 = sess := by rw [hbeq]
      omega
    · intro b hb
      rcases List.mem_cons.mp hb with rfl | hb
      · exact hconv
      · exact hcv' b hb

lemma genDaysFrom_decomp {σ : Type} {rng : RNG σ} (hl : rng.Lawful) {user : UserProfile}
    {beh : SegmentBehavior} (i : Nat) (hu : user.user_id = "user_" ++ pad4 i)
    (hbeh : user_segments user.segment = some beh) (start_date : Nat) :
    ∀ r day events s, ∃ bs : List ((Nat × Nat × Nat) × List Event),
      (genDaysFrom rng user beh start_date day r events s).1 =
        events ++ (bs.map Prod.snd).flatten ∧
      (∀ b ∈ bs, BlockShape user b.1 b.2) ∧
      (∀ b ∈ bs, b.1.1 = i ∧ start_date / 1440 + day ≤ b.1.2.1 ∧
        b.1.2.1 < start_date / 1440 + day + r) ∧
      (bs.map Prod.fst).Nodup ∧
      (∀ b ∈ bs, ∀ q, ConvOk q b.2) := by
  intro r
  induction r with
  | zero =>
    intro day events s
    exact ⟨[], by simp [genDaysFrom], by simp, by simp, by simp, by simp⟩
  | succ r ih =>
    intro day events s
    have harith : (start_date + 1440 * day) / 1440 = start_date / 1440 + day :=
      Nat.add_mul_div_left start_date day (by norm_num)
    set d₁ := rng.randint beh.daily_sessions.1 beh.daily_sessions.2 s with hd₁
    set e₁ := genSessionsFrom rng user beh (start_date + 1440 * day) 0 d₁.1 events d₁.2 with he₁
    obtain ⟨bs₁, heq₁, hsh₁, hkey₁, hnd₁, hcv₁⟩ :=
      genSessionsFrom_decomp hl i hu hbeh (start_date + 1440 * day) d₁.1 0 events d₁.2
    obtain ⟨bs₂, heq₂, hsh₂, hkey₂, hnd₂, hcv₂⟩ := ih (day + 1) e₁.1 e₁.2
    refine ⟨bs₁ ++ bs₂, ?_, ?_, ?_, ?_, ?_⟩
    · show (genDaysFrom rng user beh start_date (day + 1) r e₁.1 e₁.2).1 = _
      rw [heq₂, he₁, heq₁]
      simp [List.append_assoc]
    · intro b hb
      rcases List.mem_append.mp hb with hb | hb
      · exact hsh₁ b hb
      · exact hsh₂ b hb
    · intro b hb
      rcases List.mem_append.mp hb with hb | hb
      · obtain ⟨h1, h2, _, _⟩ := hkey₁ b hb
        rw [harith] at h2
        exact ⟨h1, by omega, by omega⟩
      · obtain ⟨h1, h2, h3⟩ := hkey₂ b hb
        exact ⟨h1, by omega, by omega⟩
    · rw [List.map_append, List.nodup_append]
      refine ⟨hnd₁, hnd₂, ?_⟩
      intro k hk1 hk2
      obtain ⟨b1, hb1, hb1eq⟩ := List.mem_map.mp hk1
      obtain ⟨b2, hb2, hb2eq⟩ := List.mem_map.mp hk2
      obtain ⟨_, h2a, _, _⟩ := hkey₁ b1 hb1
      obtain ⟨_, h2b, _⟩ := hkey₂ b2 hb2
      rw [harith] at h2a
      have hx1 : k.2.1 = start_date / 1440 + day := by rw [← hb1eq]; exact h2a
      have hx2 : start_date / 1440 + (day + 1) ≤ k.2.1 := by rw [← hb2eq]; exact h2b
      omega
    · intro b hb
      rcases List.mem_append.mp hb with hb | hb
      · exact hcv₁ b hb
      · exact hcv₂ b hb

lemma genUsersFrom_decomp {σ : Type} {rng : RNG σ} (hl : rng.Lawful) (days start_date : Nat) :
    ∀ (users : List UserProfile) (i₀ : Nat),
      (∀ j, ∀ hj : j < users.length, (users.get ⟨j, hj⟩).user_id = "user_" ++ pad4 (i₀ + j)) →
      (∀ u ∈ users, u.segment ∈ ["power_user", "regular_user", "casual_user"]) →
      ∀ events s, ∃ bs : List ((Nat × Nat × Nat) × List Event),
        (genUsersFrom rng days start_date users events s).1 =
          events ++ (bs.map Prod.snd).flatten ∧
        (∀ b ∈ bs, ∃ u ∈ users, BlockShape u b.1 b.2) ∧
        (∀ b ∈ bs, i₀ ≤ b.1.1 ∧ b.1.1 < i₀ + users.length) ∧
        (bs.map Prod.fst).Nodup ∧
        (∀ b ∈ bs, ∀ q, ConvOk q b.2) := by
  intro users
  induction users with
  | nil =>
    intro i₀ _ _ events s
    exact ⟨[], by simp [genUsersFrom], by simp, by simp, by simp, by simp⟩
  | cons user rest ih =>
    intro i₀ husers hsegs events s
    have hu : user.user_id = "user_" ++ pad4 i₀ := by
      have h0 := husers 0 (by simp)
      simpa using h0
    have hex : ∃ beh, user_segments user.segment = some beh := by
      have hseg := hsegs user (List.mem_cons_self user rest)
      simp only [List.mem_cons, List.mem_singleton, List.not_mem_nil, or_false] at hseg
      rcases hseg with h | h | h
      · exact ⟨⟨(3, 8), (15, 45), (10, 30)⟩, by rw [h]; decide⟩
      · exact ⟨⟨(1, 3), (5, 20), (3, 10)⟩, by rw [h]; decide⟩
      · exact ⟨⟨(0, 2), (2, 10), (1, 5)⟩, by rw [h]; decide⟩
    obtain ⟨beh, hbeh⟩ := hex
    have hgd : (user_segments user.segment).getD ⟨(0, 0), (0, 0), (0, 0)⟩ = beh := by
      rw [hbeh]; rfl
    set e₁ := genDaysFrom rng user beh start_date 0 days events s with he₁
    obtain ⟨bs₁, heq₁, hsh₁, hkey₁, hnd₁, hcv₁⟩ :=
      genDaysFrom_decomp hl i₀ hu hbeh start_date days 0 events s
    have hrest : ∀ j, ∀ hj : j < rest.length,
        (rest.get ⟨j, hj⟩).user_id = "user_" ++ pad4 (i₀ + 1 + j) := by
      intro j hj
      have hj₂ : j + 1 < (user :: rest).length := by simp; omega
      have h1 := husers (j + 1) hj₂
      have harith : i₀ + (j + 1) = i₀ + 1 + j := by omega
      rw [harith] at h1
      exact h1
    obtain ⟨bs₂, heq₂, hsh₂, hkey₂, hnd₂, hcv₂⟩ := ih (i₀ + 1) hrest
      (fun u hu₂ => hsegs u (List.mem_cons_of_mem user hu₂)) e₁.1 e₁.2
    refine ⟨bs₁ ++ bs₂, ?_, ?_, ?_, ?_, ?_⟩
    · have hstep : genUsersFrom rng days start_date (user :: rest) events s =
          genUsersFrom rng days start_date rest e₁.1 e₁.2 := by
        show genUsersFrom rng days start_date rest
            (genDaysFrom rng user ((user_segments user.segment).getD ⟨(0, 0), (0, 0), (0, 0)⟩)
              start_date 0 days events s).1
            (genDaysFrom rng user ((user_segments user.segment).getD ⟨(0, 0), (0, 0), (0, 0)⟩)
              start_date 0 days events s).2 = _
        rw [hgd]
      rw [hstep, heq₂, he₁, heq₁]
      simp [List.append_assoc]
    · intro b hb
      rcases List.mem_append.mp hb with hb | hb
      · exact ⟨user, List.mem_cons_self user rest, (hsh₁ b hb)⟩
      · obtain ⟨u, hu₂, hbs⟩ := hsh₂ b hb
        exact ⟨u, List.mem_cons_of_mem user hu₂, hbs⟩
    · intro b hb
      rcases List.mem_append.mp hb with hb | hb
      · obtain ⟨h1, _, _⟩ := hkey₁ b hb
        constructor
        · omega
        · simp [List.length_cons]
          omega
      · obtain ⟨h1, h2⟩ := hkey₂ b hb
        constructor
        · omega
        · simp [List.length_cons]
          omega
    · rw [List.map_append, List.nodup_append]
      refine ⟨hnd₁, hnd₂, ?_⟩
      intro k hk1 hk2
      obtain ⟨b1, hb1, hb1eq⟩ := List.mem_map.mp hk1
      obtain ⟨b2, hb2, hb2eq⟩ := List.mem_map.mp hk2
      obtain ⟨h1a, _, _⟩ := hkey₁ b1 hb1
      obtain ⟨h1b, _⟩ := hkey₂ b2 hb2
      have hx1 : k.1 = i₀ := by rw [← hb1eq]; exact h1a
      have hx2 : i₀ + 1 ≤ k.1 := by rw [← hb2eq]; exact h1b
      omega
    · intro b hb
      rcases List.mem_append.mp hb with hb | hb
      · exact hcv₁ b hb
      · exact hcv₂ b hb

lemma generate_decomp {σ : Type} {rng : RNG σ} (hl : rng.Lawful) (n days now : Nat) (s : σ) :
    ∃ bs : List ((Nat × Nat × Nat) × List Event),
      (generate_analytics_data rng n days now s).2.1 = (bs.map Prod.snd).flatten ∧
      (∀ b ∈ bs, ∃ u ∈ (generate_analytics_data rng n days now s).1, BlockShape u b.1 b.2) ∧
      (bs.map Prod.fst).Nodup ∧
      ConvOk none (generate_analytics_data rng n days now s).2.1 := by
  set p := genProfilesFrom rng now 0 n s with hp
  have husers : ∀ j, ∀ hj : j < p.1.length,
      (p.1.get ⟨j, hj⟩).user_id = "user_" ++ pad4 (0 + j) := by
    intro j hj
    exact genProfilesFrom_get rng now n 0 s j hj
  have hsegs : ∀ u ∈ p.1, u.segment ∈ ["power_user", "regular_user", "casual_user"] :=
    genProfilesFrom_segment hl now n 0 s
  obtain ⟨bs, heq, hsh, hkey, hnd, hcv⟩ :=
    genUsersFrom_decomp hl days (now - 1440 * days) p.1 0 husers hsegs [] p.2
  have hgen : (generate_analytics_data rng n days now s).2.1 =
      (genUsersFrom rng days (now - 1440 * days) p.1 [] p.2).1 := rfl
  have hgenu : (generate_analytics_data rng n days now s).1 = p.1 := rfl
  refine ⟨bs, ?_, ?_, hnd, ?_⟩
  · rw [hgen, heq]
    rfl
  · intro b hb
    rw [hgenu]
    exact hsh b hb
  · rw [hgen, heq]
    show ConvOk none ([] ++ (bs.map Prod.snd).flatten)
    rw [convOk_append]
    exact ⟨trivial, convOk_flatten bs hcv _⟩

lemma filter_decide_and (l : List Event) (p q : Event → Prop) [DecidablePred p]
    [DecidablePred q] :
    (l.filter fun e => decide (p e ∧ q e)) =
      ((l.filter fun e => decide (p e)).filter fun e => decide (q e)) := by
  induction l with
  | nil => rfl
  | cons x t ih =>
    rw [List.filter_cons, List.filter_cons]
    by_cases hp : p x
    · by_cases hq : q x
      · rw [if_pos (by simp [hp, hq]), if_pos (by simp [hp]), List.filter_cons,
          if_pos (by simp [hq]), ih]
      · rw [if_neg (by simp [hp, hq]), if_pos (by simp [hp]), List.filter_cons,
          if_neg (by simp [hq]), ih]
    · rw [if_neg (by simp [hp]), if_neg (by simp [hp]), ih]

lemma str_append_assoc (a b c : String) : a ++ b ++ c = a ++ (b ++ c) := by
  have h : (a ++ b ++ c).data = (a ++ (b ++ c)).data := by
    rw [data_append, data_append, data_append, data_append, List.append_assoc]
  cases a
  cases b
  cases c
  simpa [String.ext_iff] using h

lemma conv_id_eq (sid : String) : sid ++ "_conversion" = sid ++ "_" ++ posStr none := by
  have h : ("_conversion" : String) = "_" ++ "conversion" := rfl
  have h2 : posStr none = "conversion" := rfl
  rw [h2, str_append_assoc, ← h]

lemma BlockShape.mem_shape {u : UserProfile} {key : Nat × Nat × Nat} {blk : List Event}
    (hb : BlockShape u key blk) :
    ∀ e ∈ blk,
      (∃ np sstart dur j, j < np ∧
        PageShape u (sidStr key.1 key.2.1 key.2.2) sstart dur np j e) ∨
      (∃ sstart dur prev, ConvShape u (sidStr key.1 key.2.1 key.2.2) sstart dur prev e) := by
  obtain ⟨_, np, sstart, dur, pages, tl, hnp, rfl, hlen, hps, htl⟩ := hb
  intro e he
  rcases List.mem_append.mp he with he | he
  · obtain ⟨⟨j, hj⟩, hget⟩ := List.mem_iff_get.mp he
    refine Or.inl ⟨np, sstart, dur, j, by omega, ?_⟩
    rw [← hget]
    exact hps j hj
  · rcases htl with rfl | ⟨c, hpne, rfl, hcs⟩
    · cases he
    · rcases List.mem_singleton.mp he with rfl
      exact Or.inr ⟨sstart, dur, _, hcs⟩

lemma BlockShape.sid_of_mem {u : UserProfile} {key : Nat × Nat × Nat} {blk : List Event}
    (hb : BlockShape u key blk) :
    ∀ e ∈ blk, e.session_id = sidStr key.1 key.2.1 key.2.2 := by
  intro e he
  rcases hb.mem_shape e he with ⟨np, ss, dr, j, _, hps⟩ | ⟨ss, dr, prev, hcs⟩
  · exact hps.2.2.1
  · exact hcs.2.2.1

lemma BlockShape.seg_of_mem {u : UserProfile} {key : Nat × Nat × Nat} {blk : List Event}
    (hb : BlockShape u key blk) :
    ∀ e ∈ blk, e.user_segment = u.segment := by
  intro e he
  rcases hb.mem_shape e he with ⟨np, ss, dr, j, _, hps⟩ | ⟨ss, dr, prev, hcs⟩
  · obtain ⟨_, _, _, _, _, _, _, _, _, hseg, _, _, _⟩ := hps
    exact hseg
  · obtain ⟨_, _, _, _, _, _, _, _, _, _, _, _, hseg, _⟩ := hcs
    exact hseg

lemma BlockShape.eid_of_mem {u : UserProfile} {key : Nat × Nat × Nat} {blk : List Event}
    (hb : BlockShape u key blk) :
    ∀ e ∈ blk, ∃ pos : Option Nat,
      e.event_id = eventKeyStr key.1 key.2.1 key.2.2 pos := by
  intro e he
  rcases hb.mem_shape e he with ⟨np, ss, dr, j, _, hps⟩ | ⟨ss, dr, prev, hcs⟩
  · exact ⟨some j, hps.1⟩
  · refine ⟨none, ?_⟩
    rw [eventKeyStr, ← conv_id_eq]
    exact hcs.1

lemma BlockShape.eids_nodup {u : UserProfile} {key : Nat × Nat × Nat} {blk : List Event}
    (hb : BlockShape u key blk) : (blk.map fun e => e.event_id).Nodup := by
  obtain ⟨_, np, sstart, dur, pages, tl, hnp, rfl, hlen, hps, htl⟩ := hb
  rw [List.map_append, List.nodup_append]
  have hpagesid : ∀ j, ∀ hj : j < pages.length,
      (pages.get ⟨j, hj⟩).event_id = eventKeyStr key.1 key.2.1 key.2.2 (some j) :=
    fun j hj => (hps j hj).1
  refine ⟨?_, ?_, ?_⟩
  · rw [List.nodup_iff_injective_get]
    intro ⟨j, hj⟩ ⟨j₂, hj₂⟩ hjj
    rw [List.length_map] at hj hj₂
    have e1 : (List.map (fun e => e.event_id) pages).get ⟨j, by rw [List.length_map]; exact hj⟩ =
        (pages.get ⟨j, hj⟩).event_id := List.get_map _
    have e2 : (List.map (fun e => e.event_id) pages).get ⟨j₂, by rw [List.length_map]; exact hj₂⟩ =
        (pages.get ⟨j₂, hj₂⟩).event_id := List.get_map _
    have : (pages.get ⟨j, hj⟩).event_id = (pages.get ⟨j₂, hj₂⟩).event_id := by
      rw [← e1, ← e2]
      exact hjj
    rw [hpagesid j hj, hpagesid j₂ hj₂] at this
    obtain ⟨_, _, _, hpos⟩ := eventKeyStr_inj this
    have : j = j₂ := by injection hpos
    exact Fin.ext this
  · rcases htl with rfl | ⟨c, hpne, rfl, hcs⟩
    · exact List.nodup_nil
    · simp
  · intro x hx1 hx2
    obtain ⟨e, he, rfl⟩ := List.mem_map.mp hx1
    obtain ⟨⟨j, hj⟩, hget⟩ := List.mem_iff_get.mp he
    rcases htl with rfl | ⟨c, hpne, rfl, hcs⟩
    · simp at hx2
    · have hx2' : e.event_id = c.event_id := by
        simp only [List.map_cons, List.map_nil, List.mem_singleton] at hx2
        exact hx2
      have hpage : e.event_id = eventKeyStr key.1 key.2.1 key.2.2 (some j) := by
        rw [← hget]
        exact hpagesid j hj
      have hconv : c.event_id = eventKeyStr key.1 key.2.1 key.2.2 none := by
        rw [eventKeyStr, ← conv_id_eq]
        exact hcs.1
      rw [hpage, hconv] at hx2'
      obtain ⟨_, _, _, hpos⟩ := eventKeyStr_inj hx2'
      cases hpos

lemma blocks_filter : ∀ bs : List ((Nat × Nat × Nat) × List Event),
    (∀ b ∈ bs, ∃ u, BlockShape u b.1 b.2) →
    (bs.map Prod.fst).Nodup →
    ∀ b ∈ bs, ((bs.map Prod.snd).flatten.filter fun e =>
      decide (e.session_id = sidStr b.1.1 b.1.2.1 b.1.2.2)) = b.2 := by
  intro bs
  induction bs with
  | nil => intro _ _ b hb; cases hb
  | cons b₀ t ih =>
    intro hsh hnd b hb
    have hnd₂ := hnd
    rw [List.map_cons, List.nodup_cons] at hnd₂
    have hflat : (List.map Prod.snd (b₀ :: t)).flatten = b₀.2 ++ (t.map Prod.snd).flatten := rfl
    rw [hflat, List.filter_append]
    rcases List.mem_cons.mp hb with rfl | hbt
    · have h1 : (b.2.filter fun e =>
          decide (e.session_id = sidStr b.1.1 b.1.2.1 b.1.2.2)) = b.2 := by
        rw [List.filter_eq_self]
        intro e he
        obtain ⟨u, hbs⟩ := hsh b (List.mem_cons_self b t)
        rw [hbs.sid_of_mem e he]
        simp
      have h2 : (((t.map Prod.snd).flatten).filter fun e =>
          decide (e.session_id = sidStr b.1.1 b.1.2.1 b.1.2.2)) = [] := by
        rw [List.filter_eq_nil_iff]
        intro e he
        obtain ⟨l, hl₂, hel⟩ := List.mem_flatten.mp he
        obtain ⟨bx, hbx, rfl⟩ := List.mem_map.mp hl₂
        obtain ⟨u, hbs⟩ := hsh bx (List.mem_cons_of_mem b hbx)
        have hsid := hbs.sid_of_mem e hel
        simp only [decide_eq_true_eq]
        intro hcontra
        rw [hsid] at hcontra
        obtain ⟨hk1, hk2, hk3⟩ := sidStr_inj hcontra
        exact hnd₂.1 ((Prod.ext hk1 (Prod.ext hk2 hk3)) ▸ List.mem_map_of_mem Prod.fst hbx)
      rw [h1, h2, List.append_nil]
    · have hkey_ne : b₀.1 ≠ b.1 := by
        intro hcontra
        exact hnd₂.1 (hcontra ▸ List.mem_map_of_mem Prod.fst hbt)
      have h1 : (b₀.2.filter fun e =>
          decide (e.session_id = sidStr b.1.1 b.1.2.1 b.1.2.2)) = [] := by
        rw [List.filter_eq_nil_iff]
        intro e he
        obtain ⟨u, hbs⟩ := hsh b₀ (List.mem_cons_self b₀ t)
        have hsid := hbs.sid_of_mem e he
        simp only [decide_eq_true_eq]
        intro hcontra
        rw [hsid] at hcontra
        obtain ⟨hk1, hk2, hk3⟩ := sidStr_inj hcontra
        exact hkey_ne (Prod.ext hk1 (Prod.ext hk2 hk3))
      rw [h1]
      rw [ih (fun x hx => hsh x (List.mem_cons_of_mem b₀ hx)) hnd₂.2 b hbt]
      rfl

lemma convOk_head (l : List Event) (h : ConvOk none l) :
    ∀ hk : 0 < l.length, (l.get ⟨0, hk⟩).event_type ≠ "conversion" := by
  cases l with
  | nil => intro hk; simp at hk
  | cons e t =>
    intro hk hconv
    obtain ⟨p, hp, _⟩ := h.1 hconv
    simp at hp

lemma convOk_succ : ∀ (l : List Event) (p : Option Event), ConvOk p l →
    ∀ k, ∀ hk : k + 1 < l.length, (l.get ⟨k + 1, hk⟩).event_type = "conversion" →
      ∃ hk₀ : k < l.length,
        (l.get ⟨k, hk₀⟩).event_type = "page_view" ∧
        (l.get ⟨k, hk₀⟩).session_id = (l.get ⟨k + 1, hk⟩).session_id ∧
        (l.get ⟨k + 1, hk⟩).referrer = (l.get ⟨k, hk₀⟩).referrer := by
  intro l
  induction l with
  | nil => intro p _ k hk; simp at hk
  | cons e t ih =>
    intro p hcv k hk hconv
    cases k with
    | zero =>
      cases t with
      | nil => simp at hk
      | cons e₂ t₂ =>
        obtain ⟨q, hq, hqpv, hqsid, hqref⟩ := hcv.2.1 hconv
        have he : e = q := by injection hq
        refine ⟨by simp, ?_, ?_, ?_⟩
        · rw [he]
          exact hqpv
        · rw [he]
          exact hqsid
        · rw [he]
          exact hqref
    | succ k =>
      have hk₂ : k + 1 < t.length := by
        simp only [List.length_cons] at hk
        omega
      obtain ⟨hk₀, h1, h2, h3⟩ := ih (some e) hcv.2 k hk₂ hconv
      exact ⟨by simp only [List.length_cons]; omega, h1, h2, h3⟩

/-- C8.  For every session id present in an event list, `session_metrics`
has exactly one row for it; its start/end are the least/greatest timestamp
of the group, `page_views` is the group size, `bounced` the disjunction of
the bounce flags, the categorical fields come from the group's first event
in sequence order, and the duration is end − start minutes, ≥ 0. -/
theorem session_metrics_row_correct (events : List Event) (sid : String)
    (hs : sid ∈ events.map fun e => e.session_id) : SessionRowSpec events sid := by
  have hd : sid ∈ (events.map fun e => e.session_id).dedup := List.mem_dedup.mpr hs
  obtain ⟨e0, he0, he0sid⟩ := List.mem_map.mp hs
  refine ⟨_, List.mem_map_of_mem _ hd, rfl, ?_, ?_⟩
  · intro r₂ hr₂ hr₂sid
    obtain ⟨k, _, hk⟩ := List.mem_map.mp hr₂
    have : k = sid := by rw [← hk] at hr₂sid; exact hr₂sid
    rw [← hk, this]
  · have he0grp : e0 ∈ events.filter fun e => decide (e.session_id = sid) :=
      List.mem_filter.mpr ⟨he0, by simp [he0sid]⟩
    have hgrpne : (events.filter fun e => decide (e.session_id = sid)) ≠ [] :=
      List.ne_nil_of_mem he0grp
    have hmapne : ((events.filter fun e => decide (e.session_id = sid)).map
        fun e => e.timestamp) ≠ [] := by
      simpa using hgrpne
    have hmin_mem := minNat_mem _ hmapne
    have hmax_mem := maxNat_mem _ hmapne
    have hmin_le := minNat_le ((events.filter fun e => decide (e.session_id = sid)).map
      fun e => e.timestamp)
    have hmax_le := le_maxNat ((events.filter fun e => decide (e.session_id = sid)).map
      fun e => e.timestamp)
    refine ⟨hmin_mem, hmin_le, hmax_mem, hmax_le, rfl, List.any_eq_true,
      ⟨hgrpne, ?_, ?_, ?_, ?_⟩, rfl, ?_⟩
    · exact head_map_getD _ hgrpne (fun e => e.user_id) ""
    · exact head_map_getD _ hgrpne (fun e => e.device_type) ""
    · exact head_map_getD _ hgrpne (fun e => e.country) ""
    · exact head_map_getD _ hgrpne (fun e => e.referrer) ""
    · have h1 : minNat ((events.filter fun e => decide (e.session_id = sid)).map
          fun e => e.timestamp) ≤ e0.timestamp := hmin_le _ (List.mem_map_of_mem _ he0grp)
      have h2 : e0.timestamp ≤ maxNat ((events.filter fun e => decide (e.session_id = sid)).map
          fun e => e.timestamp) := hmax_le _ (List.mem_map_of_mem _ he0grp)
      simp only [sub_nonneg]
      exact_mod_cast le_trans h1 h2

/-- C8, witness: the two-event input instantiates the session-row contract. -/
theorem session_metrics_row_correct_witness : SessionRowSpec pairEvents "s1" :=
  session_metrics_row_correct pairEvents "s1" (by decide)

/-- C3 (amended).  For every (date, user) key with at least one event,
`daily_user_metrics` has exactly one row; its `sessions` counts distinct
session ids of the group, its `page_views` counts every event of the group —
page-views and conversions alike — and `total_time` sums time-on-page. -/
theorem daily_metrics_row_correct (events : List Event) (d : Nat) (u : String)
    (hs : ∃ e ∈ events, eventDate e = d ∧ e.user_id = u) : DailyRowSpec events d u := by
  obtain ⟨e0, he0, he0d, he0u⟩ := hs
  have hpair : (d, u) ∈ events.map fun e => (eventDate e, e.user_id) := by
    have : (eventDate e0, e0.user_id) ∈ events.map fun e => (eventDate e, e.user_id) :=
      List.mem_map_of_mem _ he0
    rwa [he0d, he0u] at this
  have hd : (d, u) ∈ (events.map fun e => (eventDate e, e.user_id)).dedup :=
    List.mem_dedup.mpr hpair
  refine ⟨_, List.mem_map_of_mem _ hd, rfl, rfl, ?_, rfl, rfl, rfl⟩
  intro r₂ hr₂ hr₂d hr₂u
  obtain ⟨k, _, hk⟩ := List.mem_map.mp hr₂
  have hk1 : k.1 = d := by rw [← hk] at hr₂d; exact hr₂d
  have hk2 : k.2 = u := by rw [← hk] at hr₂u; exact hr₂u
  have : k = (d, u) := Prod.ext hk1 hk2
  rw [← hk, this]

/-- C3, witness: the two-event input instantiates the daily-row contract. -/
theorem daily_metrics_row_correct_witness : DailyRowSpec pairEvents 0 "u1" :=
  daily_metrics_row_correct pairEvents 0 "u1" (by decide)

/-- C4.  Bounce invariant: a generated event's bounce flag is set exactly when
the event is a page-view whose session contains exactly one page-view event
over the whole run; conversion events always carry bounce = false. -/
theorem bounce_iff_single_pageview {σ : Type} (rng : RNG σ) (hl : rng.Lawful)
    (n days now : Nat) (s : σ) :
    BounceSpec (generate_analytics_data rng n days now s).2.1 := by
  obtain ⟨bs, heq, hsh, hnd, _⟩ := generate_decomp hl n days now s
  have hsh' : ∀ b ∈ bs, ∃ u, BlockShape u b.1 b.2 := fun b hb =>
    (hsh b hb).elim fun u hu => ⟨u, hu.2⟩
  intro e he
  rw [heq] at he
  obtain ⟨l, hl₂, hel⟩ := List.mem_flatten.mp he
  obtain ⟨b, hb, rfl⟩ := List.mem_map.mp hl₂
  obtain ⟨u, hbs⟩ := hsh' b hb
  have hsid : e.session_id = sidStr b.1.1 b.1.2.1 b.1.2.2 := hbs.sid_of_mem e hel
  have hfilter : ((generate_analytics_data rng n days now s).2.1.filter fun x =>
      decide (x.session_id = e.session_id ∧ x.event_type = "page_view")) =
      (b.2.filter fun x => decide (x.event_type = "page_view")) := by
    rw [filter_decide_and, heq, hsid, blocks_filter bs hsh' hnd b hb]
  rw [hfilter]
  obtain ⟨_, np, sstart, dur, pages, tl, hnp, hblk, hlen, hps, htl⟩ := hbs
  have hpvfilter : (b.2.filter fun x => decide (x.event_type = "page_view")) = pages := by
    rw [hblk, List.filter_append]
    have h1 : (pages.filter fun x => decide (x.event_type = "page_view")) = pages := by
      rw [List.filter_eq_self]
      intro x hx
      obtain ⟨⟨j, hj⟩, hget⟩ := List.mem_iff_get.mp hx
      have hty := (hps j hj).2.2.2.1
      rw [hget] at hty
      simp [hty]
    have h2 : (tl.filter fun x => decide (x.event_type = "page_view")) = [] := by
      rcases htl with rfl | ⟨c, hpne, rfl, hcs⟩
      · rfl
      · have hct : c.event_type = "conversion" := hcs.2.2.2.2.1
        simp [List.filter_cons, hct]
    rw [h1, h2, List.append_nil]
  rw [hpvfilter, hlen]
  rw [hblk] at hel
  rcases List.mem_append.mp hel with hep | het
  · obtain ⟨⟨j, hj⟩, hget⟩ := List.mem_iff_get.mp hep
    have hb1 := (hps j hj).2.2.2.2.2.2.1
    have htype := (hps j hj).2.2.2.1
    rw [hget] at hb1 htype
    rw [hb1, htype]
    simp only [Bool.and_eq_true, decide_eq_true_eq]
    constructor
    · rintro ⟨-, h2⟩
      exact ⟨by trivial, h2⟩
    · rintro ⟨-, h2⟩
      refine ⟨?_, h2⟩
      omega
  · rcases htl with rfl | ⟨c, hpne, rfl, hcs⟩
    · cases het
    · rcases List.mem_singleton.mp het with rfl
      have hbf : e.bounce = false := hcs.2.2.2.2.2.2.2.2.1
      have hct : e.event_type = "conversion" := hcs.2.2.2.2.1
      rw [hbf, hct]
      simp

/-- C4, witness: the bounce invariant instantiated on the reference run. -/
theorem bounce_iff_single_pageview_witness :
    BounceSpec (generate_analytics_data constRNG 1 1 1440 ()).2.1 :=
  bounce_iff_single_pageview constRNG constRNG_lawful 1 1 1440 ()

/-- C5 (amended).  Every generated profile's segment — and hence every
event's `user_segment` — is one of the three `user_segments` keys
`power_user`, `regular_user`, `casual_user`. -/
theorem segment_values {σ : Type} (rng : RNG σ) (hl : rng.Lawful)
    (n days now : Nat) (s : σ) :
    SegmentSpec (generate_analytics_data rng n days now s).1
      (generate_analytics_data rng n days now s).2.1 := by
  constructor
  · intro u hu
    exact genProfilesFrom_segment hl now n 0 s u hu
  · intro e he
    obtain ⟨bs, heq, hsh, hnd, _⟩ := generate_decomp hl n days now s
    rw [heq] at he
    obtain ⟨l, hl₂, hel⟩ := List.mem_flatten.mp he
    obtain ⟨b, hb, rfl⟩ := List.mem_map.mp hl₂
    obtain ⟨u, hu₂, hbs⟩ := hsh b hb
    rw [hbs.seg_of_mem e hel]
    exact genProfilesFrom_segment hl now n 0 s u hu₂

/-- C5, witness: the segment-name property instantiated on the reference run. -/
theorem segment_values_witness :
    SegmentSpec (generate_analytics_data constRNG 1 1 1440 ()).1
      (generate_analytics_data constRNG 1 1 1440 ()).2.1 :=
  segment_values constRNG constRNG_lawful 1 1 1440 ()

/-- C6.  Every conversion event has an immediate predecessor in the event
sequence; that predecessor is a page-view of the same session and the
conversion's referrer is copied from it (so the `direct` fallback, reserved
for an empty event list, never fires). -/
theorem conversion_referrer_inherited {σ : Type} (rng : RNG σ) (hl : rng.Lawful)
    (n days now : Nat) (s : σ) :
    ConvReferrerSpec (generate_analytics_data rng n days now s).2.1 := by
  obtain ⟨_, _, _, _, hcv⟩ := generate_decomp hl n days now s
  intro k hk hconv
  cases k with
  | zero => exact absurd hconv (convOk_head _ hcv hk)
  | succ k =>
    obtain ⟨hk₀, h1, h2, h3⟩ := convOk_succ _ none hcv k hk hconv
    exact ⟨hk₀, Nat.succ_pos k, h1, h2, h3⟩

/-- C6, witness: conversion-referrer inheritance on the reference run. -/
theorem conversion_referrer_inherited_witness :
    ConvReferrerSpec (generate_analytics_data constRNG 1 1 1440 ()).2.1 :=
  conversion_referrer_inherited constRNG constRNG_lawful 1 1 1440 ()

/-- C7.  All event ids of a run are pairwise distinct, and every event id is
its session id followed by an underscore and either a decimal page index or
the literal `conversion`. -/
theorem event_ids_unique {σ : Type} (rng : RNG σ) (hl : rng.Lawful)
    (n days now : Nat) (s : σ) :
    EventIdSpec (generate_analytics_data rng n days now s).2.1 := by
  obtain ⟨bs, heq, hsh, hnd, _⟩ := generate_decomp hl n days now s
  have hsh' : ∀ b ∈ bs, ∃ u, BlockShape u b.1 b.2 := fun b hb =>
    (hsh b hb).elim fun u hu => ⟨u, hu.2⟩
  constructor
  · rw [heq, List.map_flatten, List.nodup_flatten]
    constructor
    · intro l hlm
      rw [List.map_map] at hlm
      obtain ⟨b, hb, rfl⟩ := List.mem_map.mp hlm
      obtain ⟨u, hbs⟩ := hsh' b hb
      exact hbs.eids_nodup
    · rw [List.map_map, List.pairwise_map]
      have hnd' : List.Pairwise (fun a b : (Nat × Nat × Nat) × List Event => a.1 ≠ b.1) bs :=
        List.pairwise_map.mp hnd
      refine hnd'.imp_of_mem ?_
      intro a b ha hb hne
      intro x hxa hxb
      obtain ⟨u₁, hbs₁⟩ := hsh' a ha
      obtain ⟨u₂, hbs₂⟩ := hsh' b hb
      obtain ⟨e₁, he₁, rfl⟩ := List.mem_map.mp hxa
      obtain ⟨e₂, he₂, heid⟩ := List.mem_map.mp hxb
      obtain ⟨p₁, hp₁⟩ := hbs₁.eid_of_mem e₁ he₁
      obtain ⟨p₂, hp₂⟩ := hbs₂.eid_of_mem e₂ he₂
      rw [hp₂, hp₁] at heid
      obtain ⟨hk1, hk2, hk3, _⟩ := eventKeyStr_inj heid.symm
      exact hne (Prod.ext hk1 (Prod.ext hk2 hk3))
  · intro e he
    rw [heq] at he
    obtain ⟨l, hl₂, hel⟩ := List.mem_flatten.mp he
    obtain ⟨b, hb, rfl⟩ := List.mem_map.mp hl₂
    obtain ⟨u, hbs⟩ := hsh' b hb
    rcases hbs.mem_shape e hel with ⟨np, ss, dr, j, _, hps⟩ | ⟨ss, dr, prev, hcs⟩
    · left
      exact ⟨j, by rw [hps.1, hps.2.2.1]⟩
    · right
      rw [hcs.1, hcs.2.2.1]

/-- C7, witness: event-id uniqueness on the reference run. -/
theorem event_ids_unique_witness :
    EventIdSpec (generate_analytics_data constRNG 1 1 1440 ()).2.1 :=
  event_ids_unique constRNG constRNG_lawful 1 1 1440 ()

/-- C9.  Every conversion event has category `checkout`, page `order_complete`,
zero time-on-page, revenue in [10, 500] (rounded to cents, hence
non-negative), and a timestamp of session start + session duration, which
bounds every page-view timestamp of its session; and no session id has more
than one conversion event. -/
theorem conversion_event_fields {σ : Type} (rng : RNG σ) (hl : rng.Lawful)
    (n days now : Nat) (s : σ) :
    ConvFieldsSpec (generate_analytics_data rng n days now s).2.1 := by
  obtain ⟨bs, heq, hsh, hnd, _⟩ := generate_decomp hl n days now s
  have hsh' : ∀ b ∈ bs, ∃ u, BlockShape u b.1 b.2 := fun b hb =>
    (hsh b hb).elim fun u hu => ⟨u, hu.2⟩
  constructor
  · intro e he hconv
    rw [heq] at he
    obtain ⟨l, hl₂, hel⟩ := List.mem_flatten.mp he
    obtain ⟨b, hb, rfl⟩ := List.mem_map.mp hl₂
    obtain ⟨u, hbs⟩ := hsh' b hb
    obtain ⟨huid, np, sstart, dur, pages, tl, hnp, hblk, hlen, hps, htl⟩ := hbs
    rw [hblk] at hel
    rcases List.mem_append.mp hel with hep | het
    · exfalso
      obtain ⟨⟨j, hj⟩, hget⟩ := List.mem_iff_get.mp hep
      have hty := (hps j hj).2.2.2.1
      rw [hget] at hty
      rw [hty] at hconv
      exact absurd hconv (by decide)
    · rcases htl with rfl | ⟨c, hpne, rfl, hcs⟩
      · cases het
      · rcases List.mem_singleton.mp het with rfl
        obtain ⟨heid, huid2, hsid, hts, htype, hcat, hname, htop, hbou, hdev, hcty,
          href2, hseg, r, hrev, hr10, hr500⟩ := hcs
        refine ⟨hcat, hname, htop, ⟨r, hrev, hr10, hr500⟩, sstart, dur, hts, ?_⟩
        intro e₂ he₂ hsame hpv
        rw [heq] at he₂
        have he₂f : e₂ ∈ ((bs.map Prod.snd).flatten.filter fun x =>
            decide (x.session_id = sidStr b.1.1 b.1.2.1 b.1.2.2)) := by
          rw [List.mem_filter]
          refine ⟨he₂, ?_⟩
          rw [hsame, hsid]
          simp
        rw [blocks_filter bs hsh' hnd b hb, hblk] at he₂f
        rcases List.mem_append.mp he₂f with hep₂ | het₂
        · obtain ⟨⟨j, hj⟩, hget⟩ := List.mem_iff_get.mp hep₂
          have h5 := (hps j hj).2.2.2.2.1
          have h6 := (hps j hj).2.2.2.2.2.1
          rw [hget] at h5 h6
          exact ⟨h5, h6⟩
        · exfalso
          rcases List.mem_singleton.mp het₂ with rfl
          rw [htype] at hpv
          exact absurd hpv (by decide)
  · intro sid
    by_cases hex : ∃ e ∈ (generate_analytics_data rng n days now s).2.1, e.session_id = sid
    · obtain ⟨e, he, hesid⟩ := hex
      rw [heq] at he
      obtain ⟨l, hl₂, hel⟩ := List.mem_flatten.mp he
      obtain ⟨b, hb, rfl⟩ := List.mem_map.mp hl₂
      obtain ⟨u, hbs⟩ := hsh' b hb
      have hsid2 : sid = sidStr b.1.1 b.1.2.1 b.1.2.2 := by
        rw [← hesid, hbs.sid_of_mem e hel]
      rw [filter_decide_and, heq, hsid2, blocks_filter bs hsh' hnd b hb]
      obtain ⟨_, np, sstart, dur, pages, tl, hnp, hblk, hlen, hps, htl⟩ := hbs
      rw [hblk, List.filter_append]
      have h1 : (pages.filter fun x => decide (x.event_type = "conversion")) = [] := by
        rw [List.filter_eq_nil_iff]
        intro x hx
        obtain ⟨⟨j, hj⟩, hget⟩ := List.mem_iff_get.mp hx
        have hty := (hps j hj).2.2.2.1
        rw [hget] at hty
        simp [hty]
      rw [h1, List.nil_append]
      calc (tl.filter fun x => decide (x.event_type = "conversion")).length
          ≤ tl.length := List.length_filter_le _ _
      _ ≤ 1 := by
          rcases htl with rfl | ⟨c, hpne, rfl, hcs⟩
          · simp
          · simp
    · push_neg at hex
      have hnil : ((generate_analytics_data rng n days now s).2.1.filter fun x =>
          decide (x.session_id = sid ∧ x.event_type = "conversion")) = [] := by
        rw [List.filter_eq_nil_iff]
        intro x hx
        simp only [decide_eq_true_eq, not_and]
        intro hcontra
        exact absurd hcontra (hex x hx)
      rw [hnil]
      simp

/-- C9, witness: conversion-field contract on the reference run. -/
theorem conversion_event_fields_witness :
    ConvFieldsSpec (generate_analytics_data constRNG 1 1 1440 ()).2.1 :=
  conversion_event_fields constRNG constRNG_lawful 1 1 1440 ()

/-- C10.  Every segment's pages-per-session range has lower bound ≥ 1, every
session id occurring in a run has at least one page-view event, and no
conversion event is ever the first event of the run (so the `direct`
referrer fallback branch is unreachable). -/
theorem session_pageview_floor {σ : Type} (rng : RNG σ) (hl : rng.Lawful)
    (n days now : Nat) (s : σ) :
    (∀ seg beh, user_segments seg = some beh → 1 ≤ beh.pages_per_session.1) ∧
      SessionNonemptySpec (generate_analytics_data rng n days now s).2.1 := by
  obtain ⟨bs, heq, hsh, hnd, hcv⟩ := generate_decomp hl n days now s
  refine ⟨fun seg beh h => (user_segments_ranges h).1, ?_, ?_⟩
  · intro sid hsid
    obtain ⟨e, he, hesid⟩ := List.mem_map.mp hsid
    rw [heq] at he
    obtain ⟨l, hl₂, hel⟩ := List.mem_flatten.mp he
    obtain ⟨b, hb, rfl⟩ := List.mem_map.mp hl₂
    obtain ⟨u, hu₂, hbs⟩ := hsh b hb
    have hbs₀ := hbs
    obtain ⟨huid, np, sstart, dur, pages, tl, hnp, hblk, hlen, hps, htl⟩ := hbs
    have h0 : 0 < pages.length := by omega
    have hmem : pages.get ⟨0, h0⟩ ∈ (generate_analytics_data rng n days now s).2.1 := by
      rw [heq]
      refine List.mem_flatten.mpr ⟨b.2, List.mem_map_of_mem Prod.snd hb, ?_⟩
      rw [hblk]
      exact List.mem_append_left tl (List.get_mem pages 0 h0)
    refine ⟨pages.get ⟨0, h0⟩, hmem, ?_, (hps 0 h0).2.2.2.1⟩
    rw [(hps 0 h0).2.2.1, ← hesid, hbs₀.sid_of_mem e hel]
  · intro k hk hconv
    cases k with
    | zero => exact absurd hconv (convOk_head _ hcv hk)
    | succ k => exact Nat.succ_pos k

/-- C10, witness: the pages-per-session floor property on the reference run. -/
theorem session_pageview_floor_witness :
    (∀ seg beh, user_segments seg = some beh → 1 ≤ beh.pages_per_session.1) ∧
      SessionNonemptySpec (generate_analytics_data constRNG 1 1 1440 ()).2.1 :=
  session_pageview_floor constRNG constRNG_lawful 1 1 1440 ()

/-- C5, counterexample.  The generated segment strings are the
`user_segments` keys: the reference run's single profile has segment
`power_user`, which is not one of `power`, `regular`, `casual`. -/
theorem segment_strings_not_short_names :
    ((generate_analytics_data constRNG 1 1 1440 ()).1.map fun u => u.segment) =
        ["power_user"] ∧
      "power_user" ∉ ["power", "regular", "casual"] := by
  refine ⟨by decide, by decide⟩

end Analytics
